import Mathlib

/-!
# Verification of the Markdown ⇄ office-document conversion engine

A shallow embedding of the converter functions in `src-tauri/src/convert/`
(`pptx.rs`, `xlsx.rs`, `docx.rs`, `pdf.rs`), together with proofs settling the
frozen claims about them.

Conventions of the embedding:
* Rust `String`/`&str` values are modelled as `List Char`.
* File-system and ZIP I/O are abstracted away: an archive is a list of
  `(name, content)` pairs, a workbook is a list of sheets, and the pptx/docx
  builders are modelled up to the document data they embed in the container.
* The external Markdown event parser (pulldown-cmark) is represented by the
  `MdEvent` type; converters that consume it are functions of the event list.
-/

/-- Boolean test that `pat` occurs at the very start of `s`
(Rust `str::starts_with`). -/
def leadsWith : List Char → List Char → Bool
  | [], _ => true
  | _ :: _, [] => false
  | p :: ps, c :: cs => if p = c then leadsWith ps cs else false

/-- Boolean test that `pat` occurs at the very end of `s` (Rust `str::ends_with`). -/
def trailsWith (pat s : List Char) : Bool :=
  leadsWith pat.reverse s.reverse

/-- Boolean test that `pat` occurs somewhere inside `s` (contiguously). -/
def hasSub (pat : List Char) : List Char → Bool
  | [] => leadsWith pat []
  | c :: r => leadsWith pat (c :: r) || hasSub pat r

/-- Drop trailing whitespace (helper for `trimList`). -/
def trimEndList (s : List Char) : List Char :=
  (s.reverse.dropWhile Char.isWhitespace).reverse

/-- Rust `str::trim`: drop leading and trailing whitespace. -/
def trimList (s : List Char) : List Char :=
  trimEndList (s.dropWhile Char.isWhitespace)

/-- Prepend a character to the first piece of a split result. -/
def consHead (c : Char) : List (List Char) → List (List Char)
  | [] => [[c]]
  | p :: ps => (c :: p) :: ps

/-- Split a string at every occurrence of the character `sep`
(the result always has one more piece than there are separators). -/
def splitOnChar (sep : Char) : List Char → List (List Char)
  | [] => [[]]
  | c :: r => if c = sep then [] :: splitOnChar sep r else consHead c (splitOnChar sep r)

/-- Drop a single trailing carriage return, if present. -/
def dropTrailCR (l : List Char) : List Char :=
  if l.getLast? = some '\r' then l.dropLast else l

/-- Rust `str::lines`: split at `'\n'` (stripping a `'\r'` left before it); a final
line ending is optional and a trailing empty line is not produced. -/
def linesOf (s : List Char) : List (List Char) :=
  let ps := splitOnChar '\n' s
  (ps.dropLast.map dropTrailCR) ++
    (match ps.getLast? with
      | some [] => []
      | some l => [l]
      | none => [])

/-- Fuel-driven worker for `stripLeadRep`; the fuel is an upper bound on the
number of strips, which is at most the length of the string. -/
def stripLeadGo (pat : List Char) : Nat → List Char → List Char
  | 0, s => s
  | fuel + 1, s =>
    if pat ≠ [] ∧ leadsWith pat s = true then stripLeadGo pat fuel (s.drop pat.length) else s

/-- Rust `str::trim_start_matches`: repeatedly strip the pattern from the front. -/
def stripLeadRep (pat s : List Char) : List Char :=
  stripLeadGo pat s.length s

/-- Rust `str::trim_end_matches`: repeatedly strip the pattern from the back. -/
def stripTrailRep (pat s : List Char) : List Char :=
  (stripLeadRep pat.reverse s.reverse).reverse

/-- Accumulate the numeric value of a digit string; `none` on any non-digit. -/
def digitsToNat (acc : Nat) : List Char → Option Nat
  | [] => some acc
  | c :: r => if c.isDigit then digitsToNat (acc * 10 + (c.toNat - 48)) r else none

/-- Rust `str::parse::<usize>()` (64-bit target): an optional leading `'+'`,
then one or more ASCII digits, rejecting values above `usize::MAX`. -/
def parseUsize (s : List Char) : Option Nat :=
  let body := match s with
    | '+' :: r => r
    | _ => s
  match body with
  | [] => none
  | _ :: _ =>
    match digitsToNat 0 body with
    | some v => if v < 2 ^ 64 then some v else none
    | none => none

/-! ## Presentation converter (`pptx.rs`)

XML entity decoding (`extract_text_from_slide_xml`, lines 73–78) performs five
sequential `str::replace` calls with multi-character patterns.  Each call is
transcribed as a recursive matcher replacing every non-overlapping occurrence,
scanning left to right — exactly the semantics of `str::replace`. -/

/-- Transcription of `.replace("&amp;", "&")`. -/
def decAmp : List Char → List Char
  | '&' :: 'a' :: 'm' :: 'p' :: ';' :: rest => '&' :: decAmp rest
  | c :: rest => c :: decAmp rest
  | [] => []

/-- Transcription of `.replace("&lt;", "<")`. -/
def decLt : List Char → List Char
  | '&' :: 'l' :: 't' :: ';' :: rest => '<' :: decLt rest
  | c :: rest => c :: decLt rest
  | [] => []

/-- Transcription of `.replace("&gt;", ">")`. -/
def decGt : List Char → List Char
  | '&' :: 'g' :: 't' :: ';' :: rest => '>' :: decGt rest
  | c :: rest => c :: decGt rest
  | [] => []

/-- Transcription of `.replace("&quot;", "\"")`. -/
def decQuot : List Char → List Char
  | '&' :: 'q' :: 'u' :: 'o' :: 't' :: ';' :: rest => '"' :: decQuot rest
  | c :: rest => c :: decQuot rest
  | [] => []

/-- Transcription of `.replace("&apos;", "'")`. -/
def decApos : List Char → List Char
  | '&' :: 'a' :: 'p' :: 'o' :: 's' :: ';' :: rest => '\'' :: decApos rest
  | c :: rest => c :: decApos rest
  | [] => []

/-- The five-step entity decoding applied to slide text
(`extract_text_from_slide_xml`, pptx.rs lines 73–78, in source order). -/
def decodeEntities (s : List Char) : List Char :=
  decApos (decQuot (decGt (decLt (decAmp s))))

/-- Transcription of `.replace('&', "&amp;")` (a single-character pattern
replaces each occurrence of that character independently). -/
def escAmp (s : List Char) : List Char :=
  s.flatMap fun c => if c = '&' then "&amp;".toList else [c]

/-- Transcription of `.replace('<', "&lt;")`. -/
def escLt (s : List Char) : List Char :=
  s.flatMap fun c => if c = '<' then "&lt;".toList else [c]

/-- Transcription of `.replace('>', "&gt;")`. -/
def escGt (s : List Char) : List Char :=
  s.flatMap fun c => if c = '>' then "&gt;".toList else [c]

/-- Transcription of `.replace('"', "&quot;")`. -/
def escQuot (s : List Char) : List Char :=
  s.flatMap fun c => if c = '"' then "&quot;".toList else [c]

/-- Transcription of `.replace('\'', "&apos;")`. -/
def escApos (s : List Char) : List Char :=
  s.flatMap fun c => if c = '\'' then "&apos;".toList else [c]

/-- `xml_escape` (pptx.rs lines 341–347): the five escaping replacements in
source order. -/
def xml_escape (s : List Char) : List Char :=
  escApos (escQuot (escGt (escLt (escAmp s))))

/-- Split slide XML at every occurrence of the paragraph marker
(Rust `xml.split("<a:p>")`). -/
def splitAP : List Char → List (List Char)
  | '<' :: 'a' :: ':' :: 'p' :: '>' :: rest => [] :: splitAP rest
  | c :: rest => consHead c (splitAP rest)
  | [] => [[]]

/-- Split a paragraph chunk at every occurrence of the text-run marker
(Rust `para.split("<a:t>")`). -/
def splitAT : List Char → List (List Char)
  | '<' :: 'a' :: ':' :: 't' :: '>' :: rest => [] :: splitAT rest
  | c :: rest => consHead c (splitAT rest)
  | [] => [[]]

/-- Index of the first occurrence of the run-closing marker
(Rust `part.find("</a:t>")`). -/
def findCloseAT : List Char → Option Nat
  | '<' :: '/' :: 'a' :: ':' :: 't' :: '>' :: _ => some 0
  | _ :: rest => (findCloseAT rest).map (· + 1)
  | [] => none

/-- Text accumulated for one paragraph chunk: every piece up to a run-closing
marker, entity-decoded (`extract_text_from_slide_xml`, inner loop). -/
def paraText (para : List Char) : List Char :=
  (splitAT para).foldl
    (fun acc part =>
      match findCloseAT part with
      | some e => acc ++ decodeEntities (part.take e)
      | none => acc)
    []

/-- `extract_text_from_slide_xml` (pptx.rs lines 62–95): the first non-blank
paragraph becomes an `"# "` heading line, later ones are prefixed with a blank
line. -/
def extract_text_from_slide_xml (xml : List Char) : List Char :=
  ((splitAP xml).foldl
    (fun (st : List Char × Bool) para =>
      let trimmed := trimList (paraText para)
      if trimmed.isEmpty then st
      else if st.2 then (st.1 ++ ("# ".toList ++ trimmed ++ ['\n']), false)
      else (st.1 ++ ('\n' :: trimmed), st.2))
    ([], true)).1

/-- The slide-entry name markers (pptx.rs lines 22 and 28–29). -/
def slideNamePat : List Char := "ppt/slides/slide".toList

/-- The `.xml` suffix marker. -/
def xmlSuffixPat : List Char := ".xml".toList

/-- Slide index embedded in an archive entry name
(pptx.rs lines 27–31: strip the two markers, parse, default `0`). -/
def slideNum (name : List Char) : Nat :=
  (parseUsize (stripTrailRep xmlSuffixPat (stripLeadRep slideNamePat name))).getD 0

/-- The entry-scanning loop of `pptx_to_markdown` (pptx.rs lines 15–43): skip
entries not named `ppt/slides/slide*.xml`, keep `(index, text)` for slides with
non-empty extracted text. -/
def collectSlides : List (List Char × List Char) → List (Nat × List Char)
  | [] => []
  | e :: rest =>
    if !(leadsWith slideNamePat e.1) || !(trailsWith xmlSuffixPat e.1) then
      collectSlides rest
    else
      let num := slideNum e.1
      let text := extract_text_from_slide_xml e.2
      (if !text.isEmpty then [(num, text)] else []) ++ collectSlides rest

/-- Insert into a list sorted by slide index, after all entries with an index
`≤` the new one (so the overall sort is stable, as Rust `sort_by_key` is). -/
def insertByNum (x : Nat × List Char) : List (Nat × List Char) → List (Nat × List Char)
  | [] => [x]
  | y :: ys => if x.1 ≤ y.1 then x :: y :: ys else y :: insertByNum x ys

/-- Stable sort by slide index (`slides.sort_by_key(|(n, _)| *n)`, pptx.rs line 46). -/
def sortByNum : List (Nat × List Char) → List (Nat × List Char)
  | [] => []
  | x :: xs => insertByNum x (sortByNum xs)

/-- The output loop of `pptx_to_markdown` (pptx.rs lines 48–55): slides joined
by one blank line, each followed by a newline. -/
def renderSlides (slides : List (Nat × List Char)) : List Char :=
  (slides.foldl
    (fun (st : List Char × Bool) s =>
      ((if st.2 then st.1 else st.1 ++ ['\n']) ++ s.2 ++ ['\n'], false))
    ([], true)).1

/-- `pptx_to_markdown` (pptx.rs lines 5–58) over an abstract ZIP archive given
as `(entry name, entry content)` pairs in archive order. -/
def pptx_to_markdown (entries : List (List Char × List Char)) : List Char :=
  renderSlides (sortByNum (collectSlides entries))

/-- The per-entry selection of `pptx_to_markdown` as an option-valued map:
`none` for entries whose names do not match `ppt/slides/slide*.xml` and for
slides with empty extracted text, otherwise `(index, text)`. -/
def slideSelect (e : List Char × List Char) : Option (Nat × List Char) :=
  if leadsWith slideNamePat e.1 && trailsWith xmlSuffixPat e.1 then
    let text := extract_text_from_slide_xml e.2
    if text.isEmpty then none else some (slideNum e.1, text)
  else none

/-- Test for a top-level Markdown heading line
(`line.starts_with("# ") && !line.starts_with("## ")`, pptx.rs line 107). -/
def isH1Line (l : List Char) : Bool :=
  leadsWith ("# ".toList) l && !(leadsWith ("## ".toList) l)

/-- State of the slide-splitting loop of `markdown_to_pptx`. -/
structure SlideAcc where
  slides : List (List Char × List (List Char))
  title : List Char
  body : List (List Char)
deriving DecidableEq

/-- One step of the slide-splitting loop of `markdown_to_pptx`
(pptx.rs lines 106–117). -/
def slideStep (st : SlideAcc) (line : List Char) : SlideAcc :=
  if isH1Line line then
    let slides :=
      if st.title ≠ [] ∨ st.body ≠ [] then st.slides ++ [(st.title, st.body)] else st.slides
    { slides := slides, title := stripLeadRep ("# ".toList) line, body := [] }
  else if !(trimList line).isEmpty then
    { st with body := st.body ++ [line] }
  else st

/-- `markdown_to_pptx` (pptx.rs lines 100–130), modelled up to the slide list
handed to the container builder: split on top-level headings, push the final
slide if non-empty, and fall back to a single `"Presentation"` slide holding
every input line when no slide was produced. -/
def markdown_to_pptx (md : List Char) : List (List Char × List (List Char)) :=
  let st := (linesOf md).foldl slideStep { slides := [], title := [], body := [] }
  let slides :=
    if st.title ≠ [] ∨ st.body ≠ [] then st.slides ++ [(st.title, st.body)] else st.slides
  if slides.isEmpty then [("Presentation".toList, linesOf md)] else slides

/-! ## Spreadsheet converter (`xlsx.rs`) -/

/-- The per-sheet row cap (`MAX_ROWS_PER_SHEET`, xlsx.rs line 7). -/
def MAX_ROWS_PER_SHEET : Nat := 500

/-- One rendered table cell segment (`format!(" {} |", ...)`). -/
def cellSeg (c : List Char) : List Char :=
  " ".toList ++ c ++ " |".toList

/-- One rendered pipe-table row: `'|'`, a segment per cell, newline. -/
def rowLine (r : List (List Char)) : List Char :=
  '|' :: r.flatMap cellSeg ++ ['\n']

/-- The separator row: `'|'` followed by one `" --- |"` per column
(xlsx.rs lines 56–60 and docx.rs lines 168–172). -/
def sepLine (colCount : Nat) : List Char :=
  '|' :: (List.range colCount).flatMap (fun _ => " --- |".toList) ++ ['\n']

/-- The data-row loop of `xlsx_to_markdown` (xlsx.rs lines 63–74): emit rows
until the counter reaches `MAX_ROWS_PER_SHEET`, then break. -/
def dataRowsLoop : List (List (List Char)) → Nat → List Char
  | [], _ => []
  | r :: rs, cnt =>
    if MAX_ROWS_PER_SHEET ≤ cnt then [] else rowLine r ++ dataRowsLoop rs (cnt + 1)

/-- The truncation notice (xlsx.rs lines 77–83). -/
def noteLine (omitted : Nat) : List Char :=
  "\n> **Note**: ".toList ++ (Nat.repr omitted).toList ++
    " rows were omitted (showing first ".toList ++ (Nat.repr MAX_ROWS_PER_SHEET).toList ++
    " data rows).\n".toList

/-- The sheet heading (`format!("## {}\n\n", sheet_name)`, xlsx.rs line 33). -/
def sheetHeading (name : List Char) : List Char :=
  "## ".toList ++ name ++ "\n\n".toList

/-- The per-sheet body of the `xlsx_to_markdown` loop (xlsx.rs lines 24–83),
without the blank line separating consecutive sheets.  `rows` is the sheet's
cell grid already stringified by `cell_to_string`; `colCount` is the width
reported by `range.get_size()`. -/
def sheetSection (name : List Char) (rows : List (List (List Char))) (colCount : Nat) :
    List Char :=
  if colCount = 0 then []
  else
    sheetHeading name ++
      (if rows.length = 0 then "*(empty sheet)*\n".toList
       else
        let rowsToRead := min rows.length (MAX_ROWS_PER_SHEET + 1)
        match rows.take rowsToRead with
        | [] => []
        | header :: dataRows =>
          rowLine header ++ sepLine colCount ++ dataRowsLoop dataRows 0 ++
            (if MAX_ROWS_PER_SHEET + 1 < rows.length then
              noteLine (rows.length - MAX_ROWS_PER_SHEET - 1)
             else []))

/-- `xlsx_to_markdown` (xlsx.rs lines 12–87) over an abstract workbook: a list
of `(sheet name, stringified rows, width)` triples in file order.  Sheets with
zero columns contribute nothing; non-empty output accumulated so far is
separated from the next sheet by one blank line. -/
def xlsx_to_markdown (sheets : List (List Char × List (List (List Char)) × Nat)) : List Char :=
  sheets.foldl
    (fun out sh =>
      let sec := sheetSection sh.1 sh.2.1 sh.2.2
      if sec.isEmpty then out
      else (if out.isEmpty then out else out ++ ['\n']) ++ sec)
    []

/-! ## The Markdown event stream

Every `fromMarkdown` converter consumes pulldown-cmark events.  The library is
external to the repository; its event stream is modelled by `MdEvent`, and the
converters are transcribed as functions of the event list. -/

/-- Markdown events, mirroring the pulldown-cmark `Event`/`Tag` constructors
the converters match on (all other events are `other`). -/
inductive MdEvent where
  | hStart (level : Nat)
  | hEnd (level : Nat)
  | pStart
  | pEnd
  | strongStart
  | strongEnd
  | emphStart
  | emphEnd
  | tableStart
  | tableEnd
  | headStart
  | headEnd
  | rowStart
  | rowEnd
  | cellStart
  | cellEnd
  | txt (s : List Char)
  | brSoft
  | brHard
  | other
deriving DecidableEq

/-- State of the table-extraction loop of `extract_tables_from_markdown`
(xlsx.rs lines 116–121). -/
structure TabAcc where
  tables : List (List (List Char) × List (List (List Char)))
  inTable : Bool
  inHead : Bool
  headerRow : List (List Char)
  dataRows : List (List (List Char))
  currentRow : List (List Char)
  currentCell : List Char
deriving DecidableEq

/-- One step of `extract_tables_from_markdown` (xlsx.rs lines 123–167). -/
def tabStep (st : TabAcc) (ev : MdEvent) : TabAcc :=
  match ev with
  | .tableStart => { st with inTable := true, headerRow := [], dataRows := [] }
  | .tableEnd =>
    { st with inTable := false, tables := st.tables ++ [(st.headerRow, st.dataRows)],
              headerRow := [], dataRows := [] }
  | .headStart => { st with inHead := true, currentRow := [] }
  | .headEnd => { st with inHead := false, headerRow := st.currentRow, currentRow := [] }
  | .rowStart => { st with currentRow := [] }
  | .rowEnd => { st with dataRows := st.dataRows ++ [st.currentRow], currentRow := [] }
  | .cellStart => { st with currentCell := [] }
  | .cellEnd => { st with currentRow := st.currentRow ++ [st.currentCell], currentCell := [] }
  | .txt s => if st.inTable then { st with currentCell := st.currentCell ++ s } else st
  | _ => st

/-- `extract_tables_from_markdown` (xlsx.rs lines 111–171): every GFM table in
the event stream as a `(header, data rows)` pair, in encounter order. -/
def extract_tables_from_markdown (events : List MdEvent) : List (List (List Char) × List (List (List Char))) :=
  (events.foldl tabStep
    { tables := [], inTable := false, inHead := false, headerRow := [],
      dataRows := [], currentRow := [], currentCell := [] }).tables

/-- The fallback write loop of `markdown_to_xlsx` (xlsx.rs lines 187–191):
line `i` of the input written as text at row `i`, column 0. -/
def writeLines : Nat → List (List Char) → List (Nat × Nat × List Char)
  | _, [] => []
  | i, l :: ls => (i, 0, l) :: writeLines (i + 1) ls

/-- The header write loop (xlsx.rs lines 201–205): header cell `j` at row 0,
column `j`. -/
def writeHeaderCells : Nat → List (List Char) → List (Nat × Nat × List Char)
  | _, [] => []
  | j, c :: cs => (0, j, c) :: writeHeaderCells (j + 1) cs

/-- One data row (xlsx.rs lines 209–213): cell `j` of data row `i` (0-based)
written at row `i + 1`, column `j`. -/
def writeRowCells (i : Nat) : Nat → List (List Char) → List (Nat × Nat × List Char)
  | _, [] => []
  | j, c :: cs => (i + 1, j, c) :: writeRowCells i (j + 1) cs

/-- The data-row write loop (xlsx.rs lines 208–214). -/
def writeDataRows : Nat → List (List (List Char)) → List (Nat × Nat × List Char)
  | _, [] => []
  | i, r :: rs => writeRowCells i 0 r ++ writeDataRows (i + 1) rs

/-- The per-table sheet loop of `markdown_to_xlsx` (xlsx.rs lines 193–215):
table `idx` (0-based) becomes sheet `Table{idx+1}`. -/
def writeTables : Nat → List (List (List Char) × List (List (List Char))) → List (List Char × List (Nat × Nat × List Char))
  | _, [] => []
  | n, t :: ts =>
    ("Table".toList ++ (Nat.repr (n + 1)).toList,
      writeHeaderCells 0 t.1 ++ writeDataRows 0 t.2) :: writeTables (n + 1) ts

/-- `markdown_to_xlsx` (xlsx.rs lines 176–223), modelled up to the sheets and
string-cell writes performed on the workbook: `events` is the pulldown-cmark
event stream of `md`. -/
def markdown_to_xlsx (md : List Char) (events : List MdEvent) : List (List Char × List (Nat × Nat × List Char)) :=
  let tables := extract_tables_from_markdown events
  if tables.isEmpty then [("Sheet1".toList, writeLines 0 (linesOf md))]
  else writeTables 0 tables

/-! ## Word-processing converter (`docx.rs`) -/

/-- Children of a word-processing run (`RunChild`): only text and tab
contribute; everything else is skipped. -/
inductive RunItem where
  | textItem (t : List Char)
  | tabItem
  | otherRunItem
deriving DecidableEq

/-- A word-processing run.  The flags transcribe
`run.run_property.bold.is_some()` / `...italic.is_some()` (docx.rs 109–110). -/
structure DocxRun where
  children : List RunItem
  bold : Bool
  italic : Bool
deriving DecidableEq

/-- The text-collection loop of `run_to_markdown` (docx.rs lines 94–101). -/
def runText (r : DocxRun) : List Char :=
  r.children.foldl
    (fun acc ch =>
      match ch with
      | .textItem t => acc ++ t
      | .tabItem => acc ++ ['\t']
      | .otherRunItem => acc)
    []

/-- `run_to_markdown` (docx.rs lines 93–118). -/
def run_to_markdown (r : DocxRun) : List Char :=
  let text := runText r
  if text.isEmpty then []
  else
    match r.bold, r.italic with
    | true, true => "***".toList ++ text ++ "***".toList
    | true, false => "**".toList ++ text ++ "**".toList
    | false, true => "*".toList ++ text ++ "*".toList
    | false, false => text

/-- Children of a word-processing paragraph (`ParagraphChild`): only runs
contribute. -/
inductive ParaItem where
  | runItem (r : DocxRun)
  | otherParaItem
deriving DecidableEq

/-- A word-processing paragraph with its optional style id. -/
structure DocxParagraph where
  style : Option (List Char)
  children : List ParaItem
deriving DecidableEq

/-- The style-id match of `paragraph_to_markdown` (docx.rs lines 62–77):
case-insensitive, accepting both `"Heading1"` and `"Heading 1"` spellings. -/
def headingMark (styleVal : List Char) : List Char :=
  let ls := styleVal.map Char.toLower
  if ls = "heading1".toList ∨ ls = "heading 1".toList then "# ".toList
  else if ls = "heading2".toList ∨ ls = "heading 2".toList then "## ".toList
  else if ls = "heading3".toList ∨ ls = "heading 3".toList then "### ".toList
  else if ls = "heading4".toList ∨ ls = "heading 4".toList then "#### ".toList
  else if ls = "heading5".toList ∨ ls = "heading 5".toList then "##### ".toList
  else if ls = "heading6".toList ∨ ls = "heading 6".toList then "###### ".toList
  else []

/-- `paragraph_to_markdown` (docx.rs lines 60–91). -/
def paragraph_to_markdown (p : DocxParagraph) : List Char :=
  let hm :=
    match p.style with
    | some s => headingMark s
    | none => []
  let text :=
    p.children.foldl
      (fun acc ch =>
        match ch with
        | .runItem r => acc ++ run_to_markdown r
        | .otherParaItem => acc)
      []
  if text.isEmpty then [] else hm ++ text

/-- Contents of a word-processing table cell (`TableCellContent`): only
paragraphs contribute. -/
inductive CellItem where
  | paraCell (p : DocxParagraph)
  | otherCellItem
deriving DecidableEq

/-- The cell-text accumulation of `table_to_markdown` (docx.rs lines 128–139):
space-joined, trimmed paragraph texts. -/
def cellText (items : List CellItem) : List Char :=
  items.foldl
    (fun acc it =>
      match it with
      | .paraCell p =>
        let pm := paragraph_to_markdown p
        if pm.isEmpty then acc
        else (if acc.isEmpty then acc else acc ++ [' ']) ++ trimList pm
      | .otherCellItem => acc)
    []

/-- The row-collection loop of `table_to_markdown` (docx.rs lines 121–145):
rows with no cells are dropped. -/
def collectTableRows (t : List (List (List CellItem))) : List (List (List Char)) :=
  t.foldl
    (fun rows row =>
      let cells := row.map cellText
      if cells.isEmpty then rows else rows ++ [cells])
    []

/-- `rows.iter().map(|r| r.len()).max().unwrap_or(0)`
(docx.rs line 151 and line 288). -/
def maxRowLen (rows : List (List (List Char))) : Nat :=
  rows.foldr (fun r m => max r.length m) 0

/-- One Markdown table row padded to `n` columns: cell `i` is
`row.get(i).unwrap_or("")` (docx.rs lines 161–164 and 176–180). -/
def paddedRowLine (n : Nat) (r : List (List Char)) : List Char :=
  '|' :: (List.range n).flatMap (fun i => cellSeg (r.getD i [])) ++ ['\n']

/-- `table_to_markdown` (docx.rs lines 120–185). -/
def table_to_markdown (t : List (List (List CellItem))) : List Char :=
  match collectTableRows t with
  | [] => []
  | header :: dataRows =>
    let colCount := maxRowLen (header :: dataRows)
    if colCount = 0 then []
    else
      paddedRowLine colCount header ++ sepLine colCount ++
        dataRows.flatMap (paddedRowLine colCount)

/-- Top-level children of a word-processing document (`DocumentChild`):
paragraphs and tables are meaningful, everything else is skipped. -/
inductive DocChild where
  | paraChild (p : DocxParagraph)
  | tableChild (t : List (List (List CellItem)))
  | otherChild
deriving DecidableEq

/-- `docx_to_markdown` (docx.rs lines 18–57), over the parsed document's
top-level children.  The pair state is `(output, first_block)`. -/
def docx_to_markdown (children : List DocChild) : List Char :=
  (children.foldl
    (fun (st : List Char × Bool) ch =>
      match ch with
      | .paraChild p =>
        let md := paragraph_to_markdown p
        if (trimList md).isEmpty then
          if !st.2 then (st.1 ++ ['\n'], st.2) else st
        else
          ((if !st.2 then st.1 ++ ['\n'] else st.1) ++ md ++ ['\n'], false)
      | .tableChild t =>
        ((if !st.2 then st.1 ++ ['\n'] else st.1) ++ table_to_markdown t ++ ['\n'], false)
      | .otherChild => st)
    ([], true)).1

/-- A docx block built by the exporter `markdown_to_docx`: a paragraph is an
optional style plus `(text, bold, italic)` runs; a table holds its padded cell
texts (each cell one unstyled run, docx.rs lines 289–298). -/
inductive DocxBlock where
  | paraBlock (style : Option (List Char)) (runs : List (List Char × Bool × Bool))
  | tableBlock (rows : List (List (List Char)))
deriving DecidableEq

/-- State of the `markdown_to_docx` event loop (docx.rs lines 195–204). -/
structure DocxAcc where
  blocks : List DocxBlock
  pending : List (List Char × Bool × Bool)
  current : List Char
  inBold : Bool
  inItalic : Bool
  headingLevel : Option Nat
  inTable : Bool
  tableRows : List (List (List Char))
  currentTableRow : List (List Char)
  currentCellText : List Char
deriving DecidableEq

/-- The `flush_paragraph!` macro (docx.rs lines 207–226): flush the text
buffer into a final run, drain pending runs into a new paragraph with the given
style, and append the paragraph unconditionally. -/
def flushPara (style : Option (List Char)) (st : DocxAcc) : DocxAcc :=
  let pending :=
    if st.current ≠ [] then st.pending ++ [(st.current, st.inBold, st.inItalic)] else st.pending
  { st with blocks := st.blocks ++ [.paraBlock style pending], pending := [], current := [] }

/-- The buffer flush performed on emphasis boundaries
(docx.rs lines 252–279): push the current text as a run, keep flags. -/
def stashText (st : DocxAcc) : DocxAcc :=
  if st.current ≠ [] then
    { st with pending := st.pending ++ [(st.current, st.inBold, st.inItalic)], current := [] }
  else st

/-- One step of the `markdown_to_docx` event loop (docx.rs lines 228–341). -/
def exportStep (st : DocxAcc) (ev : MdEvent) : DocxAcc :=
  match ev with
  | .hStart level => { flushPara none st with headingLevel := some level }
  | .hEnd _ =>
    let level := st.headingLevel.getD 1
    let style := "Heading".toList ++ (Nat.repr level).toList
    { flushPara (some style) st with headingLevel := none }
  | .pStart => st
  | .pEnd => flushPara none st
  | .strongStart => { stashText st with inBold := true }
  | .strongEnd => { stashText st with inBold := false }
  | .emphStart => { stashText st with inItalic := true }
  | .emphEnd => { stashText st with inItalic := false }
  | .tableStart => { st with inTable := true, tableRows := [] }
  | .tableEnd =>
    let st2 :=
      if st.tableRows ≠ [] then
        let colCount := maxRowLen st.tableRows
        { st with blocks := st.blocks ++
            [.tableBlock (st.tableRows.map fun r => (List.range colCount).map fun i => r.getD i [])] }
      else st
    { st2 with inTable := false, tableRows := [] }
  | .headStart => { st with currentTableRow := [] }
  | .headEnd => { st with tableRows := st.tableRows ++ [st.currentTableRow], currentTableRow := [] }
  | .rowStart => { st with currentTableRow := [] }
  | .rowEnd => { st with tableRows := st.tableRows ++ [st.currentTableRow], currentTableRow := [] }
  | .cellStart => { st with currentCellText := [] }
  | .cellEnd =>
    { st with currentTableRow := st.currentTableRow ++ [st.currentCellText], currentCellText := [] }
  | .txt s =>
    if st.inTable then { st with currentCellText := st.currentCellText ++ s }
    else { st with current := st.current ++ s }
  | .brSoft => if !st.inTable then { st with current := st.current ++ [' '] } else st
  | .brHard => if !st.inTable then { st with current := st.current ++ [' '] } else st
  | .other => st

/-- The initial exporter state. -/
def initDocxAcc : DocxAcc :=
  { blocks := [], pending := [], current := [], inBold := false, inItalic := false,
    headingLevel := none, inTable := false, tableRows := [], currentTableRow := [],
    currentCellText := [] }

/-- `markdown_to_docx` (docx.rs lines 188–356), modelled up to the sequence of
blocks added to the document: run the event loop, then flush any remaining
content (docx.rs lines 344–346). -/
def markdown_to_docx (events : List MdEvent) : List DocxBlock :=
  let st := events.foldl exportStep initDocxAcc
  let st := if st.current ≠ [] ∨ st.pending ≠ [] then flushPara none st else st
  st.blocks

/-- Modelled from the spec: the shared "Markdown Event Parser" (spec §2) is the
external pulldown-cmark library, absent from this repository's sources.  For a
document that is a single ATX heading line (`#`..`######`, a space, then plain
heading text free of markup), the parser emits a heading-start event carrying
the level, one text event holding the trimmed heading text, and a heading-end
event. -/
def parseHeadingDoc (md : List Char) : List MdEvent :=
  let marks := md.takeWhile (fun c => c = '#')
  let k := marks.length
  let rest := md.drop k
  if 1 ≤ k ∧ k ≤ 6 ∧ rest.head? = some ' ' then
    let content := trimList ((rest.drop 1).takeWhile (fun c => c ≠ '\n'))
    [.hStart k, .txt content, .hEnd k]
  else []

/-! ## Page-layout extractor (`pdf.rs`) -/

/-- The single error kind shared by every converter (`mod.rs` lines 8–9). -/
structure ConversionError where
  msg : List Char
deriving DecidableEq

/-- `PDF_IMPORT_NOTICE` (pdf.rs lines 5–6; the Rust `\` line continuation joins
the two literal lines without inserting characters). -/
def PDF_IMPORT_NOTICE : List Char :=
  ("> **Import Notice**: This PDF was imported as plain text.\n" ++
    "> Images, tables, and complex formatting have been removed.\n\n").toList

/-- `pdf_to_markdown` (pdf.rs lines 16–27) over the outcomes of its two
fallible effects: the file read and the library text extraction. -/
def pdf_to_markdown (readRes : Except (List Char) (List Nat))
    (extractRes : List Nat → Except (List Char) (List Char)) :
    Except ConversionError (List Char) :=
  match readRes with
  | .error e => .error ⟨"Failed to read PDF: ".toList ++ e⟩
  | .ok bytes =>
    match extractRes bytes with
    | .error e => .error ⟨"Failed to extract PDF text: ".toList ++ e⟩
    | .ok text => .ok (PDF_IMPORT_NOTICE ++ text)

/-- Per-character view of the full `xml_escape` composition: the five
sequential single-character replacements amount to mapping each character
through this function (proved in `xml_escape_eq_flatMap`). -/
def escChar5 (c : Char) : List Char :=
  if c = '&' then "&amp;".toList
  else if c = '<' then "&lt;".toList
  else if c = '>' then "&gt;".toList
  else if c = '"' then "&quot;".toList
  else if c = '\'' then "&apos;".toList
  else [c]

/-- Per-character escape state after the decoder has undone the `&amp;` pass:
`<`, `>`, `"`, `'` still escaped. -/
def escChar4 (c : Char) : List Char :=
  if c = '<' then "&lt;".toList
  else if c = '>' then "&gt;".toList
  else if c = '"' then "&quot;".toList
  else if c = '\'' then "&apos;".toList
  else [c]

/-- Escape state after undoing `&amp;` and `&lt;`. -/
def escChar3 (c : Char) : List Char :=
  if c = '>' then "&gt;".toList
  else if c = '"' then "&quot;".toList
  else if c = '\'' then "&apos;".toList
  else [c]

/-- Escape state after undoing `&amp;`, `&lt;` and `&gt;`. -/
def escChar2 (c : Char) : List Char :=
  if c = '"' then "&quot;".toList
  else if c = '\'' then "&apos;".toList
  else [c]

/-- Escape state after undoing all but `&apos;`. -/
def escChar1 (c : Char) : List Char :=
  if c = '\'' then "&apos;".toList
  else [c]

/-- A character allowed in "plain heading text": alphanumeric or a space. -/
def plainChar (c : Char) : Bool := c.isAlphanum || c = ' '

/-- Plain heading text: non-empty, made of alphanumerics and spaces, and not
starting or ending with a space (so the parser's trimming is the identity). -/
def PlainHeadingText (t : List Char) : Prop :=
  t ≠ [] ∧ (∀ c ∈ t, plainChar c = true) ∧ t.head? ≠ some ' ' ∧ t.getLast? ≠ some ' '

instance (t : List Char) : Decidable (PlainHeadingText t) := by
  unfold PlainHeadingText; infer_instance

/-! ## Helper lemmas -/

theorem dataRowsLoop_eq (rs : List (List (List Char))) :
    ∀ cnt, cnt ≤ MAX_ROWS_PER_SHEET →
      dataRowsLoop rs cnt = (rs.take (MAX_ROWS_PER_SHEET - cnt)).flatMap rowLine := by
  induction rs with
  | nil => intro cnt _; simp [dataRowsLoop]
  | cons r rs ih =>
    intro cnt hcnt
    by_cases h : MAX_ROWS_PER_SHEET ≤ cnt
    · have : cnt = MAX_ROWS_PER_SHEET := le_antisymm hcnt h
      simp [dataRowsLoop, h, this]
    · have hlt : cnt < MAX_ROWS_PER_SHEET := lt_of_not_ge h
      have hsub : MAX_ROWS_PER_SHEET - cnt = (MAX_ROWS_PER_SHEET - (cnt + 1)) + 1 := by omega
      rw [dataRowsLoop, if_neg h, ih (cnt + 1) hlt, hsub, List.take_succ_cons]
      simp

/-- Claim C10: `pdf_to_markdown` returns `Ok` exactly when both the file read
and the text extraction succeed, and in that case its output is the fixed
import-notice blockquote followed by the extracted text; every read or
extraction failure returns a `ConversionError` and nothing else is produced. -/
theorem pdf_to_markdown_spec (readRes : Except (List Char) (List Nat))
    (extractRes : List Nat → Except (List Char) (List Char)) :
    (∀ bytes text, readRes = .ok bytes → extractRes bytes = .ok text →
      pdf_to_markdown readRes extractRes = .ok (PDF_IMPORT_NOTICE ++ text)) ∧
    (∀ e, readRes = .error e →
      pdf_to_markdown readRes extractRes = .error ⟨"Failed to read PDF: ".toList ++ e⟩) ∧
    (∀ bytes e, readRes = .ok bytes → extractRes bytes = .error e →
      pdf_to_markdown readRes extractRes =
        .error ⟨"Failed to extract PDF text: ".toList ++ e⟩) ∧
    (∀ out, pdf_to_markdown readRes extractRes = .ok out →
      ∃ bytes text, readRes = .ok bytes ∧ extractRes bytes = .ok text ∧
        out = PDF_IMPORT_NOTICE ++ text) := by
  refine ⟨?_, ?_, ?_, ?_⟩
  · intro bytes text hr hx
    simp [pdf_to_markdown, hr, hx]
  · intro e hr
    simp [pdf_to_markdown, hr]
  · intro bytes e hr hx
    simp [pdf_to_markdown, hr, hx]
  · intro out hout
    cases hr : readRes with
    | error e => simp [pdf_to_markdown, hr] at hout
    | ok bytes =>
      cases hx : extractRes bytes with
      | error e => simp [pdf_to_markdown, hr, hx] at hout
      | ok text =>
        refine ⟨bytes, text, rfl, hx, ?_⟩
        simp [pdf_to_markdown, hr, hx] at hout
        exact hout.symm

/-- Witness for C10 at a concrete successful read and extraction. -/
theorem pdf_to_markdown_spec_witness :
    pdf_to_markdown (.ok [37]) (fun _ => .ok ("hi".toList)) =
      .ok (PDF_IMPORT_NOTICE ++ "hi".toList) :=
  (pdf_to_markdown_spec (.ok [37]) (fun _ => .ok ("hi".toList))).1 [37] ("hi".toList) rfl rfl

/-- Claim C2: for every sheet imported by `xlsx_to_markdown` (with at least one
column): a sheet with 600 data rows (601 total rows including the header)
yields a table with exactly 500 data rows followed by the trailing note
reporting 100 omitted rows; a sheet with at most 500 data rows (at most 501
total rows) has all its data rows emitted and no note appended. -/
theorem xlsx_row_cap (name : List Char) (rows : List (List (List Char))) (colCount : Nat)
    (hc : 0 < colCount) :
    (rows.length = 601 →
      sheetSection name rows colCount =
        sheetHeading name ++ rowLine (rows.headD []) ++ sepLine colCount ++
          ((rows.drop 1).take 500).flatMap rowLine ++ noteLine 100 ∧
      ((rows.drop 1).take 500).length = 500) ∧
    (rows.length ≤ 501 →
      sheetSection name rows colCount =
        sheetHeading name ++
          (if rows.length = 0 then "*(empty sheet)*\n".toList
           else rowLine (rows.headD []) ++ sepLine colCount ++ (rows.drop 1).flatMap rowLine)) := by
  constructor
  · intro hlen
    cases rows with
    | nil => simp at hlen
    | cons h t =>
      have ht : t.length = 600 := by simpa using hlen
      have hmin : min (h :: t).length (MAX_ROWS_PER_SHEET + 1) = 501 := by
        simp [MAX_ROWS_PER_SHEET, hlen]
      have htake : (h :: t).take 501 = h :: t.take 500 := List.take_succ_cons
      constructor
      · have homit : (h :: t).length - MAX_ROWS_PER_SHEET - 1 = 100 := by
          simp [MAX_ROWS_PER_SHEET, hlen]
        have hnote : MAX_ROWS_PER_SHEET + 1 < (h :: t).length := by
          simp [MAX_ROWS_PER_SHEET, hlen]
        rw [sheetSection, if_neg hc.ne']
        rw [if_neg (by simp [hlen] : ¬ (h :: t).length = 0)]
        simp only [hmin, htake, homit, if_pos hnote]
        rw [dataRowsLoop_eq (t.take 500) 0 (by simp [MAX_ROWS_PER_SHEET])]
        simp [MAX_ROWS_PER_SHEET, List.take_take]
      · simp [List.length_take, ht]
  · intro hlen
    cases rows with
    | nil => simp [sheetSection, hc.ne']
    | cons h t =>
      have ht : t.length ≤ 500 := by
        simp at hlen; omega
      have hmin : min (h :: t).length (MAX_ROWS_PER_SHEET + 1) = (h :: t).length := by
        simp [MAX_ROWS_PER_SHEET]; omega
      have hnote : ¬ MAX_ROWS_PER_SHEET + 1 < (h :: t).length := by
        simp [MAX_ROWS_PER_SHEET]; omega
      rw [sheetSection, if_neg hc.ne']
      rw [if_neg (by simp : ¬ (h :: t).length = 0)]
      simp only [hmin, List.take_length, if_neg hnote]
      rw [dataRowsLoop_eq t 0 (by simp [MAX_ROWS_PER_SHEET])]
      have htk : t.take (MAX_ROWS_PER_SHEET - 0) = t := by
        apply List.take_of_length_le; simpa [MAX_ROWS_PER_SHEET] using ht
      rw [htk]
      simp

/-- Witness for C2 at a concrete 601-row sheet (600 data rows) with one column. -/
theorem xlsx_row_cap_witness :
    0 < 1 ∧
    (sheetSection ("S".toList) (List.replicate 601 ([] : List (List Char))) 1 =
      sheetHeading ("S".toList) ++
        rowLine ((List.replicate 601 ([] : List (List Char))).headD []) ++ sepLine 1 ++
        (((List.replicate 601 ([] : List (List Char))).drop 1).take 500).flatMap rowLine ++
        noteLine 100 ∧
      (((List.replicate 601 ([] : List (List Char))).drop 1).take 500).length = 500) :=
  ⟨by decide,
    (xlsx_row_cap ("S".toList) (List.replicate 601 ([] : List (List Char))) 1 (by decide)).1
      (List.length_replicate 601 [])⟩

/-- Counterexample for C1: the input `"hello"` has no top-level heading line,
yet `markdown_to_pptx` produces one slide whose title is the empty string, not
`"Presentation"` (the fallback slide is only built when no slide at all was
accumulated, and any non-blank line already populates a slide body). -/
theorem markdown_to_pptx_no_heading_counterexample :
    (∀ l ∈ linesOf ("hello".toList), isH1Line l = false) ∧
    markdown_to_pptx ("hello".toList) ≠
      [("Presentation".toList, ["hello".toList])] := by
  constructor
  · decide
  · decide

theorem slideFold_no_heading (ls : List (List Char)) :
    ∀ body : List (List Char), (∀ l ∈ ls, isH1Line l = false) →
      ls.foldl slideStep { slides := [], title := [], body := body } =
        { slides := [], title := [],
          body := body ++ ls.filter (fun l => !(trimList l).isEmpty) } := by
  induction ls with
  | nil => intro body _; simp
  | cons l ls ih =>
    intro body h
    have hl : isH1Line l = false := h l (by simp)
    have hrest : ∀ x ∈ ls, isH1Line x = false := fun x hx => h x (by simp [hx])
    by_cases ht : (trimList l).isEmpty
    · rw [List.foldl_cons]
      rw [show slideStep { slides := [], title := [], body := body } l =
          { slides := [], title := [], body := body } by simp [slideStep, hl, ht]]
      rw [ih body hrest]
      simp [List.filter_cons, ht]
    · rw [List.foldl_cons]
      rw [show slideStep { slides := [], title := [], body := body } l =
          { slides := [], title := [], body := body ++ [l] } by simp [slideStep, hl, ht]]
      rw [ih (body ++ [l]) hrest]
      simp [List.filter_cons, ht]

/-- Claim C1, amended: for every Markdown input with no top-level heading line,
`markdown_to_pptx` produces exactly one slide.  If at least one input line is
non-blank, that slide's title is the **empty string** (not `"Presentation"`)
and its body is every non-blank line in order; only when every input line is
blank does the `"Presentation"` fallback slide occur, and its body then holds
every line of the input (blank ones included). -/
theorem markdown_to_pptx_no_heading (md : List Char)
    (h : ∀ l ∈ linesOf md, isH1Line l = false) :
    markdown_to_pptx md =
      if (linesOf md).filter (fun l => !(trimList l).isEmpty) = [] then
        [("Presentation".toList, linesOf md)]
      else
        [([], (linesOf md).filter (fun l => !(trimList l).isEmpty))] := by
  rw [markdown_to_pptx]
  rw [slideFold_no_heading (linesOf md) [] h]
  by_cases hf : (linesOf md).filter (fun l => !(trimList l).isEmpty) = []
  · simp [hf]
  · simp [hf]

/-- Witness for C1 (amended) at the concrete input `"a\n\nb"`. -/
theorem markdown_to_pptx_no_heading_witness :
    (∀ l ∈ linesOf ("a\n\nb".toList), isH1Line l = false) ∧
    markdown_to_pptx ("a\n\nb".toList) =
      if (linesOf ("a\n\nb".toList)).filter (fun l => !(trimList l).isEmpty) = [] then
        [("Presentation".toList, linesOf ("a\n\nb".toList))]
      else
        [([], (linesOf ("a\n\nb".toList)).filter (fun l => !(trimList l).isEmpty))] :=
  ⟨by decide, markdown_to_pptx_no_heading ("a\n\nb".toList) (by decide)⟩

/-- Counterexample for C5: a run with bold and italic both set but no text
children renders as the empty string, not as `"***" ++ text ++ "***"`
(the code returns early on empty text, docx.rs lines 104–106). -/
theorem run_to_markdown_empty_counterexample :
    (DocxRun.mk [] true true).bold = true ∧ (DocxRun.mk [] true true).italic = true ∧
    run_to_markdown (DocxRun.mk [] true true) ≠
      "***".toList ++ runText (DocxRun.mk [] true true) ++ "***".toList := by
  refine ⟨rfl, rfl, ?_⟩
  decide

/-- Claim C5, amended: for every imported word-processing run **whose collected
text is non-empty**, the run renders as `***text***` when both bold and italic
are set, `**text**` when only bold is set, `*text*` when only italic is set,
and plain text otherwise (a run with empty text renders as the empty string
regardless of its flags); and a paragraph styled `Heading2` containing one bold
run `"Result"` imports to the line `"## **Result**"`. -/
theorem run_to_markdown_emphasis (r : DocxRun) (h : runText r ≠ []) :
    run_to_markdown r =
      (match r.bold, r.italic with
        | true, true => "***".toList ++ runText r ++ "***".toList
        | true, false => "**".toList ++ runText r ++ "**".toList
        | false, true => "*".toList ++ runText r ++ "*".toList
        | false, false => runText r) ∧
    paragraph_to_markdown
        (DocxParagraph.mk (some ("Heading2".toList))
          [.runItem (DocxRun.mk [.textItem ("Result".toList)] true false)]) =
      "## **Result**".toList := by
  constructor
  · have hne : (runText r).isEmpty = false := by
      simpa [List.isEmpty_iff] using h
    rw [run_to_markdown]
    simp [hne]
  · decide

/-- Witness for C5 (amended) at a concrete bold run with non-empty text. -/
theorem run_to_markdown_emphasis_witness :
    run_to_markdown (DocxRun.mk [.textItem ("hi".toList)] true false) = "**hi**".toList := by
  have h :=
    (run_to_markdown_emphasis (DocxRun.mk [.textItem ("hi".toList)] true false) (by decide)).1
  simpa using h

theorem maxRowLen_cons (r : List (List Char)) (rows : List (List (List Char))) :
    maxRowLen (r :: rows) = max r.length (maxRowLen rows) := rfl

theorem le_maxRowLen (rows : List (List (List Char))) : ∀ r ∈ rows, r.length ≤ maxRowLen rows := by
  induction rows with
  | nil => simp
  | cons a rows ih =>
    intro r hr
    rcases List.mem_cons.mp hr with h | h
    · subst h; rw [maxRowLen_cons]; exact le_max_left _ _
    · rw [maxRowLen_cons]; exact le_trans (ih r h) (le_max_right _ _)

theorem collectRows_aux (t : List (List (List CellItem))) :
    ∀ acc : List (List (List Char)), (∀ r ∈ acc, r ≠ []) →
      ∀ r ∈ t.foldl
          (fun rows row =>
            let cells := row.map cellText
            if cells.isEmpty then rows else rows ++ [cells]) acc,
        r ≠ [] := by
  induction t with
  | nil => intro acc hacc; simpa using hacc
  | cons row t ih =>
    intro acc hacc
    rw [List.foldl_cons]
    apply ih
    by_cases hc : (row.map cellText).isEmpty
    · simpa [hc] using hacc
    · intro r hr
      simp only [hc] at hr
      simp at hr
      rcases hr with hr | hr
      · exact hacc r hr
      · subst hr; simpa [List.isEmpty_iff] using hc

theorem collectTableRows_ne_nil (t : List (List (List CellItem))) :
    ∀ r ∈ collectTableRows t, r ≠ [] := by
  have h := collectRows_aux t [] (by simp)
  simpa [collectTableRows] using h

theorem rangeMap_getD_eq (r : List (List Char)) :
    ∀ n, r.length ≤ n →
      (List.range n).map (fun i => r.getD i []) = r ++ List.replicate (n - r.length) [] := by
  induction r with
  | nil =>
    intro n _
    simp [List.getD, List.map_const', List.length_range]
  | cons a r ih =>
    intro n hn
    cases n with
    | zero => simp at hn
    | succ m =>
      have hm : r.length ≤ m := by simpa using hn
      rw [List.range_succ_eq_map, List.map_cons, List.map_map]
      have hcomp : ((fun i => (a :: r).getD i ([] : List Char)) ∘ Nat.succ) =
          fun i => r.getD i [] := by
        funext i; simp [List.getD_cons_succ]
      rw [hcomp, ih m hm]
      simp [List.getD_cons_zero]

theorem flatMap_range_const (n : Nat) (xs : List Char) :
    (List.range n).flatMap (fun _ => xs) = (List.replicate n xs).flatten := by
  induction n with
  | zero => simp
  | succ m ih =>
    rw [List.range_succ, List.flatMap_append, ih, List.replicate_succ']
    simp

/-- Claim C3: for every word-processing table with at least one collected row,
the rendered Markdown table is the header line, then the separator line, then
one line per data row; every line is built from exactly
`maxRowLen rows` cell slots, where each row is padded with empty-string cells
(`r.getD i []` beyond `r.length`), and the separator line consists of exactly
`maxRowLen rows` dash segments — including when there are zero data rows. -/
theorem table_to_markdown_columns (t : List (List (List CellItem)))
    (h : collectTableRows t ≠ []) :
    0 < maxRowLen (collectTableRows t) ∧
    table_to_markdown t =
      paddedRowLine (maxRowLen (collectTableRows t)) ((collectTableRows t).headD []) ++
        sepLine (maxRowLen (collectTableRows t)) ++
        ((collectTableRows t).tail).flatMap
          (paddedRowLine (maxRowLen (collectTableRows t))) ∧
    (∀ r ∈ collectTableRows t,
      r.length ≤ maxRowLen (collectTableRows t) ∧
      (List.range (maxRowLen (collectTableRows t))).map (fun i => r.getD i []) =
        r ++ List.replicate (maxRowLen (collectTableRows t) - r.length) []) ∧
    sepLine (maxRowLen (collectTableRows t)) =
      '|' :: (List.replicate (maxRowLen (collectTableRows t)) (" --- |".toList)).flatten ++
        ['\n'] := by
  rcases hrows : collectTableRows t with _ | ⟨header, dataRows⟩
  · exact absurd hrows h
  · have hhead : header ∈ collectTableRows t := by rw [hrows]; simp
    have hne : header ≠ [] := collectTableRows_ne_nil t header hhead
    have hpos : 0 < maxRowLen (header :: dataRows) := by
      have h1 : header.length ≤ maxRowLen (header :: dataRows) :=
        le_maxRowLen _ header (by simp)
      have h2 : 0 < header.length := List.length_pos.mpr hne
      omega
    refine ⟨hpos, ?_, ?_, ?_⟩
    · rw [table_to_markdown, hrows]
      simp only [if_neg hpos.ne']
      simp
    · intro r hr
      have hle : r.length ≤ maxRowLen (header :: dataRows) := le_maxRowLen _ r hr
      exact ⟨hle, rangeMap_getD_eq r _ hle⟩
    · rw [sepLine, flatMap_range_const]

/-- Witness for C3 at a concrete one-row, one-cell table. -/
theorem table_to_markdown_columns_witness :
    collectTableRows [[([] : List CellItem)]] ≠ [] ∧
    (0 < maxRowLen (collectTableRows [[([] : List CellItem)]]) ∧
      table_to_markdown [[([] : List CellItem)]] =
        paddedRowLine (maxRowLen (collectTableRows [[([] : List CellItem)]]))
            ((collectTableRows [[([] : List CellItem)]]).headD []) ++
          sepLine (maxRowLen (collectTableRows [[([] : List CellItem)]])) ++
          ((collectTableRows [[([] : List CellItem)]]).tail).flatMap
            (paddedRowLine (maxRowLen (collectTableRows [[([] : List CellItem)]]))) ∧
      (∀ r ∈ collectTableRows [[([] : List CellItem)]],
        r.length ≤ maxRowLen (collectTableRows [[([] : List CellItem)]]) ∧
        (List.range (maxRowLen (collectTableRows [[([] : List CellItem)]]))).map
            (fun i => r.getD i []) =
          r ++ List.replicate
            (maxRowLen (collectTableRows [[([] : List CellItem)]]) - r.length) []) ∧
      sepLine (maxRowLen (collectTableRows [[([] : List CellItem)]])) =
        '|' :: (List.replicate (maxRowLen (collectTableRows [[([] : List CellItem)]]))
            (" --- |".toList)).flatten ++ ['\n']) :=
  ⟨by decide, table_to_markdown_columns [[([] : List CellItem)]] (by decide)⟩

theorem writeLines_eq (ls : List (List Char)) :
    ∀ i, writeLines i ls = (ls.enumFrom i).map fun p => (p.1, 0, p.2) := by
  induction ls with
  | nil => intro i; rfl
  | cons l ls ih =>
    intro i
    rw [writeLines, ih (i + 1)]
    rfl

theorem writeHeaderCells_eq (cs : List (List Char)) :
    ∀ j, writeHeaderCells j cs = (cs.enumFrom j).map fun q => ((0 : Nat), q.1, q.2) := by
  induction cs with
  | nil => intro j; rfl
  | cons c cs ih =>
    intro j
    rw [writeHeaderCells, ih (j + 1)]
    rfl

theorem writeRowCells_eq (i : Nat) (cs : List (List Char)) :
    ∀ j, writeRowCells i j cs = (cs.enumFrom j).map fun q => (i + 1, q.1, q.2) := by
  induction cs with
  | nil => intro j; rfl
  | cons c cs ih =>
    intro j
    rw [writeRowCells, ih (j + 1)]
    rfl

theorem writeDataRows_eq (rs : List (List (List Char))) :
    ∀ i, writeDataRows i rs =
      (rs.enumFrom i).flatMap fun rp => rp.2.enum.map fun q => (rp.1 + 1, q.1, q.2) := by
  induction rs with
  | nil => intro i; rfl
  | cons r rs ih =>
    intro i
    rw [writeDataRows, ih (i + 1), writeRowCells_eq i r 0]
    rfl

theorem writeTables_eq (ts : List (List (List Char) × List (List (List Char)))) :
    ∀ n, writeTables n ts =
      (ts.enumFrom n).map fun p =>
        ("Table".toList ++ (Nat.repr (p.1 + 1)).toList,
          writeHeaderCells 0 p.2.1 ++ writeDataRows 0 p.2.2) := by
  induction ts with
  | nil => intro n; rfl
  | cons t ts ih =>
    intro n
    rw [writeTables, ih (n + 1)]
    rfl

/-- Claim C6: `markdown_to_xlsx` writes a single sheet `Sheet1` holding line
`i` of the input as text at row `i`, column 0, when the event stream holds no
GFM table; otherwise the `n`-th table encountered (1-based) becomes sheet
`Table{n}` with its header row at spreadsheet row 0 and its data rows
following in order, every cell written as a string. -/
theorem markdown_to_xlsx_sheets (md : List Char) (events : List MdEvent) :
    (extract_tables_from_markdown events = [] →
      markdown_to_xlsx md events =
        [("Sheet1".toList, (linesOf md).enum.map fun p => (p.1, 0, p.2))]) ∧
    (extract_tables_from_markdown events ≠ [] →
      markdown_to_xlsx md events =
        (extract_tables_from_markdown events).enum.map fun p =>
          ("Table".toList ++ (Nat.repr (p.1 + 1)).toList,
            (p.2.1.enum.map fun q => ((0 : Nat), q.1, q.2)) ++
              p.2.2.enum.flatMap fun rp => rp.2.enum.map fun q => (rp.1 + 1, q.1, q.2))) := by
  constructor
  · intro he
    rw [markdown_to_xlsx]
    simp only [he, List.isEmpty_nil, if_pos]
    rw [writeLines_eq (linesOf md) 0]
    rfl
  · intro hne
    rw [markdown_to_xlsx]
    have hemp : (extract_tables_from_markdown events).isEmpty = false := by
      simpa [List.isEmpty_iff] using hne
    simp only [hemp, Bool.false_eq_true, if_false]
    rw [writeTables_eq (extract_tables_from_markdown events) 0]
    have harg : ∀ p : List (List Char) × List (List (List Char)),
        writeHeaderCells 0 p.1 ++ writeDataRows 0 p.2 =
          (p.1.enum.map fun q => ((0 : Nat), q.1, q.2)) ++
            p.2.enum.flatMap fun rp => rp.2.enum.map fun q => (rp.1 + 1, q.1, q.2) := by
      intro p
      rw [writeHeaderCells_eq p.1 0, writeDataRows_eq p.2 0]
      rfl
    simp only [List.enum]
    exact List.map_congr_left fun p _ => by rw [harg ⟨p.2.1, p.2.2⟩]; rfl

/-- Witness for C6: the no-table fallback on `"x\ny"`, and a one-table stream
producing sheet `Table1`. -/
theorem markdown_to_xlsx_sheets_witness :
    (markdown_to_xlsx ("x\ny".toList) [] =
      [("Sheet1".toList, (linesOf ("x\ny".toList)).enum.map fun p => (p.1, 0, p.2))]) ∧
    (markdown_to_xlsx ("".toList)
        [.tableStart, .headStart, .cellStart, .txt ("A".toList), .cellEnd, .headEnd,
          .rowStart, .cellStart, .txt ("B".toList), .cellEnd, .rowEnd, .tableEnd] =
      (extract_tables_from_markdown
          [.tableStart, .headStart, .cellStart, .txt ("A".toList), .cellEnd, .headEnd,
            .rowStart, .cellStart, .txt ("B".toList), .cellEnd, .rowEnd, .tableEnd]).enum.map
        fun p =>
          ("Table".toList ++ (Nat.repr (p.1 + 1)).toList,
            (p.2.1.enum.map fun q => ((0 : Nat), q.1, q.2)) ++
              p.2.2.enum.flatMap fun rp => rp.2.enum.map fun q => (rp.1 + 1, q.1, q.2))) :=
  ⟨(markdown_to_xlsx_sheets ("x\ny".toList) []).1 (by decide),
    (markdown_to_xlsx_sheets ("".toList) _).2 (by decide)⟩

theorem collectSlides_eq_filterMap (entries : List (List Char × List Char)) :
    collectSlides entries = entries.filterMap slideSelect := by
  induction entries with
  | nil => rfl
  | cons e rest ih =>
    rw [collectSlides, List.filterMap_cons]
    by_cases h : (leadsWith slideNamePat e.1 && trailsWith xmlSuffixPat e.1) = true
    · obtain ⟨h1, h2⟩ := Bool.and_eq_true_iff.mp h
      rw [if_neg (by simp [h1, h2])]
      by_cases ht : (extract_text_from_slide_xml e.2).isEmpty
      · simp [slideSelect, h1, h2, ht, ih]
      · simp [slideSelect, h1, h2, ht, ih]
    · have hf := Bool.eq_false_iff.mpr h
      have hcond : (!(leadsWith slideNamePat e.1) || !(trailsWith xmlSuffixPat e.1)) = true := by
        rcases Bool.and_eq_false_iff.mp hf with h' | h' <;> simp [h']
      rw [if_pos hcond]
      simp [slideSelect, hf, ih]

theorem collectSlides_only_matching (entries : List (List Char × List Char)) :
    collectSlides entries =
      collectSlides (entries.filter fun e =>
        leadsWith slideNamePat e.1 && trailsWith xmlSuffixPat e.1) := by
  induction entries with
  | nil => rfl
  | cons e rest ih =>
    by_cases h : (leadsWith slideNamePat e.1 && trailsWith xmlSuffixPat e.1) = true
    · obtain ⟨h1, h2⟩ := Bool.and_eq_true_iff.mp h
      have hfil : List.filter
            (fun e => leadsWith slideNamePat e.1 && trailsWith xmlSuffixPat e.1) (e :: rest) =
          e :: List.filter
            (fun e => leadsWith slideNamePat e.1 && trailsWith xmlSuffixPat e.1) rest := by
        simp [List.filter_cons, h]
      rw [hfil, collectSlides, collectSlides]
      rw [if_neg (by simp [h1, h2]), if_neg (by simp [h1, h2]), ih]
    · have hf := Bool.eq_false_iff.mpr h
      have hcond : (!(leadsWith slideNamePat e.1) || !(trailsWith xmlSuffixPat e.1)) = true := by
        rcases Bool.and_eq_false_iff.mp hf with h' | h' <;> simp [h']
      have hfil : List.filter
            (fun e => leadsWith slideNamePat e.1 && trailsWith xmlSuffixPat e.1) (e :: rest) =
          List.filter
            (fun e => leadsWith slideNamePat e.1 && trailsWith xmlSuffixPat e.1) rest := by
        simp [List.filter_cons, hf]
      rw [hfil, collectSlides, if_pos hcond, ih]

theorem insertByNum_perm (x : Nat × List Char) (ys : List (Nat × List Char)) :
    (insertByNum x ys).Perm (x :: ys) := by
  induction ys with
  | nil => simp [insertByNum]
  | cons y ys ih =>
    rw [insertByNum]
    by_cases h : x.1 ≤ y.1
    · rw [if_pos h]
    · rw [if_neg h]
      exact (ih.cons y).trans (List.Perm.swap x y ys)

theorem sortByNum_perm (xs : List (Nat × List Char)) : (sortByNum xs).Perm xs := by
  induction xs with
  | nil => simp [sortByNum]
  | cons x xs ih =>
    rw [sortByNum]
    exact (insertByNum_perm x (sortByNum xs)).trans (ih.cons x)

theorem insertByNum_sorted (x : Nat × List Char) (ys : List (Nat × List Char))
    (h : ys.Pairwise fun a b => a.1 ≤ b.1) :
    (insertByNum x ys).Pairwise fun a b => a.1 ≤ b.1 := by
  induction ys with
  | nil => simp [insertByNum]
  | cons y ys ih =>
    rcases List.pairwise_cons.mp h with ⟨hy, hys⟩
    rw [insertByNum]
    by_cases hle : x.1 ≤ y.1
    · rw [if_pos hle]
      refine List.pairwise_cons.mpr ⟨?_, h⟩
      intro b hb
      rcases List.mem_cons.mp hb with rfl | hb
      · exact hle
      · exact le_trans hle (hy b hb)
    · rw [if_neg hle]
      refine List.pairwise_cons.mpr ⟨?_, ih hys⟩
      intro b hb
      have hmem : b ∈ x :: ys := (insertByNum_perm x ys).mem_iff.mp hb
      rcases List.mem_cons.mp hmem with rfl | hb2
      · exact le_of_lt (lt_of_not_ge hle)
      · exact hy b hb2

theorem sortByNum_sorted (xs : List (Nat × List Char)) :
    (sortByNum xs).Pairwise fun a b => a.1 ≤ b.1 := by
  induction xs with
  | nil => simp [sortByNum]
  | cons x xs ih =>
    rw [sortByNum]
    exact insertByNum_sorted x (sortByNum xs) ih

theorem sorted_perm_unique (l₁ l₂ : List (Nat × List Char)) (hp : l₁.Perm l₂)
    (h₁ : l₁.Pairwise fun a b => a.1 ≤ b.1) (h₂ : l₂.Pairwise fun a b => a.1 ≤ b.1)
    (hd : l₁.Pairwise fun a b => a.1 ≠ b.1) : l₁ = l₂ := by
  have hd₂ : l₂.Pairwise fun a b => a.1 ≠ b.1 :=
    (hp.pairwise_iff fun h => h.symm).mp hd
  have hs₁ : l₁.Pairwise fun a b => a.1 < b.1 :=
    (h₁.and hd).imp fun h => lt_of_le_of_ne h.1 h.2
  have hs₂ : l₂.Pairwise fun a b => a.1 < b.1 :=
    (h₂.and hd₂).imp fun h => lt_of_le_of_ne h.1 h.2
  haveI : IsAntisymm (Nat × List Char) (fun a b => a.1 < b.1) :=
    ⟨fun a b hab hba => absurd hba (Nat.lt_asymm hab)⟩
  exact List.eq_of_perm_of_sorted hp hs₁ hs₂

/-- Claim C7: `pptx_to_markdown` selects exactly the archive entries whose
names start with `"ppt/slides/slide"` and end with `".xml"` (dropping every
other entry changes nothing); each selected slide's index is the parse of the
text between those markers, defaulting to 0 when unparsable; and the non-empty
slides are emitted sorted by that index — in particular the output does not
depend on the order of archive entries whenever the selected indices are
pairwise distinct. -/
theorem pptx_to_markdown_slide_order (entries : List (List Char × List Char)) :
    collectSlides entries = entries.filterMap slideSelect ∧
    collectSlides entries =
      collectSlides (entries.filter fun e =>
        leadsWith slideNamePat e.1 && trailsWith xmlSuffixPat e.1) ∧
    (sortByNum (collectSlides entries)).Perm (collectSlides entries) ∧
    (sortByNum (collectSlides entries)).Pairwise (fun a b => a.1 ≤ b.1) ∧
    pptx_to_markdown entries = renderSlides (sortByNum (collectSlides entries)) ∧
    (∀ name content,
      parseUsize (stripTrailRep xmlSuffixPat (stripLeadRep slideNamePat name)) = none →
      ∀ p ∈ slideSelect (name, content), p.1 = 0) ∧
    (∀ entries₂, entries.Perm entries₂ →
      ((collectSlides entries).Pairwise fun a b => a.1 ≠ b.1) →
      pptx_to_markdown entries = pptx_to_markdown entries₂) := by
  refine ⟨collectSlides_eq_filterMap entries, collectSlides_only_matching entries,
    sortByNum_perm _, sortByNum_sorted _, rfl, ?_, ?_⟩
  · intro name content hparse p hp
    rw [slideSelect] at hp
    by_cases h : (leadsWith slideNamePat name && trailsWith xmlSuffixPat name) = true
    · simp only [h, if_pos] at hp
      by_cases ht : (extract_text_from_slide_xml content).isEmpty
      · simp [ht] at hp
      · simp only [ht, Bool.false_eq_true, if_false, Option.mem_def, Option.some_inj] at hp
        rw [← hp]
        simp [slideNum, hparse]
    · simp [Bool.eq_false_iff.mpr h] at hp
  · intro entries₂ hperm hdist
    have hcp : (collectSlides entries).Perm (collectSlides entries₂) := by
      rw [collectSlides_eq_filterMap, collectSlides_eq_filterMap]
      exact hperm.filterMap slideSelect
    have hd₁ : (sortByNum (collectSlides entries)).Pairwise fun a b => a.1 ≠ b.1 :=
      ((sortByNum_perm (collectSlides entries)).pairwise_iff fun h => h.symm).mpr hdist
    have hd₂sort : (sortByNum (collectSlides entries)).Perm (sortByNum (collectSlides entries₂)) :=
      ((sortByNum_perm _).trans hcp).trans (sortByNum_perm _).symm
    have heq : sortByNum (collectSlides entries) = sortByNum (collectSlides entries₂) :=
      sorted_perm_unique _ _ hd₂sort (sortByNum_sorted _) (sortByNum_sorted _) hd₁
    rw [pptx_to_markdown, pptx_to_markdown, heq]

/-- Witness for C7: a three-entry archive with the slides stored out of order
plus a junk entry gives the same output after permuting the archive. -/
theorem pptx_to_markdown_slide_order_witness :
    pptx_to_markdown
        [(("ppt/slides/slide2.xml").toList, ("<a:p><a:t>B</a:t></a:p>").toList),
         (("junk.txt").toList, ("x").toList),
         (("ppt/slides/slide1.xml").toList, ("<a:p><a:t>A</a:t></a:p>").toList)] =
      pptx_to_markdown
        [(("ppt/slides/slide1.xml").toList, ("<a:p><a:t>A</a:t></a:p>").toList),
         (("ppt/slides/slide2.xml").toList, ("<a:p><a:t>B</a:t></a:p>").toList),
         (("junk.txt").toList, ("x").toList)] :=
  (pptx_to_markdown_slide_order
      [(("ppt/slides/slide2.xml").toList, ("<a:p><a:t>B</a:t></a:p>").toList),
       (("junk.txt").toList, ("x").toList),
       (("ppt/slides/slide1.xml").toList, ("<a:p><a:t>A</a:t></a:p>").toList)]).2.2.2.2.2.2
    [(("ppt/slides/slide1.xml").toList, ("<a:p><a:t>A</a:t></a:p>").toList),
     (("ppt/slides/slide2.xml").toList, ("<a:p><a:t>B</a:t></a:p>").toList),
     (("junk.txt").toList, ("x").toList)]
    (by decide) (by decide)

theorem isWhitespace_cases (c : Char) (h : c.isWhitespace = true) :
    c = ' ' ∨ c = '\t' ∨ c = '\r' ∨ c = '\n' := by
  simp [Char.isWhitespace] at h
  tauto

theorem plainChar_not_ws (c : Char) (hp : plainChar c = true) (hs : c ≠ ' ') :
    c.isWhitespace = false := by
  rcases Bool.or_eq_true_iff.mp hp with ha | ha
  · by_contra hws
    have hws' : c.isWhitespace = true := eq_true_of_ne_false hws
    rcases isWhitespace_cases c hws' with h | h | h | h <;> subst h <;> simp at ha
  · exact absurd (by simpa using ha) hs

theorem plainChar_ne_nl (c : Char) (hp : plainChar c = true) : c ≠ '\n' := by
  intro h
  subst h
  exact absurd hp (by decide)

theorem dropWhile_ws_append_ne_nil (l : List Char) (c : Char)
    (hc : Char.isWhitespace c = false) :
    (l ++ [c]).dropWhile Char.isWhitespace ≠ [] := by
  induction l with
  | nil => simp [List.dropWhile_cons, hc]
  | cons a l ih =>
    by_cases ha : Char.isWhitespace a
    · simpa [List.dropWhile_cons, ha] using ih
    · simp [List.dropWhile_cons, ha]

theorem trimList_cons_isEmpty_false (c : Char) (l : List Char)
    (hc : Char.isWhitespace c = false) :
    (trimList (c :: l)).isEmpty = false := by
  rw [trimList, List.dropWhile_cons, if_neg (by simp [hc])]
  rw [trimEndList, List.reverse_cons]
  have h := dropWhile_ws_append_ne_nil l.reverse c hc
  rw [← Bool.not_eq_true, List.isEmpty_iff]
  intro hcontra
  exact absurd (by simpa using hcontra) h

theorem takeWhile_append_all (p : Char → Bool) (t l : List Char)
    (h : ∀ c ∈ t, p c = true) :
    (t ++ l).takeWhile p = t ++ l.takeWhile p := by
  induction t with
  | nil => simp
  | cons a t ih =>
    have ha : p a = true := h a (by simp)
    rw [List.cons_append, List.takeWhile_cons, if_pos ha,
      ih fun c hc => h c (by simp [hc])]
    simp

theorem trimList_eq_self (t : List Char)
    (hh : ∀ b ∈ t.head?, Char.isWhitespace b = false)
    (hl : ∀ b ∈ t.getLast?, Char.isWhitespace b = false) :
    trimList t = t := by
  cases t with
  | nil => rfl
  | cons a l =>
    have ha : Char.isWhitespace a = false := hh a (by simp)
    rw [trimList, List.dropWhile_cons, if_neg (by simp [ha])]
    rw [trimEndList]
    rcases hrev : (a :: l).reverse with _ | ⟨b, r⟩
    · exact absurd hrev (by simp)
    · have hb : b ∈ (a :: l).getLast? := by
        rw [← List.head?_reverse, hrev]; rfl
      have hbw : Char.isWhitespace b = false := hl b hb
      rw [List.dropWhile_cons, if_neg (by simp [hbw]), ← hrev, List.reverse_reverse]

theorem import_heading_para (s mark t : List Char) (hne : t ≠ [])
    (hmark : headingMark s = mark) :
    paragraph_to_markdown
        (DocxParagraph.mk (some s) [.runItem (DocxRun.mk [.textItem t] false false)]) =
      mark ++ t := by
  have hrt : runText (DocxRun.mk [.textItem t] false false) = t := by simp [runText]
  have hie : t.isEmpty = false := by simpa [List.isEmpty_iff] using hne
  have hrun : run_to_markdown (DocxRun.mk [.textItem t] false false) = t := by
    rw [run_to_markdown, hrt]
    simp [hie]
  rw [paragraph_to_markdown]
  simp [hrun, hie, hmark]

theorem import_single_para (p : DocxParagraph)
    (hne : (trimList (paragraph_to_markdown p)).isEmpty = false) :
    docx_to_markdown [.paraChild p] = paragraph_to_markdown p ++ ['\n'] := by
  have hne' : ¬ trimList (paragraph_to_markdown p) = [] := by
    rw [← List.isEmpty_iff]
    simp [hne]
  rw [docx_to_markdown]
  simp [hne, hne']

theorem parseHeadingDoc_of_heading_line (k : Nat) (t : List Char)
    (hk1 : 1 ≤ k) (hk6 : k ≤ 6) (ht : PlainHeadingText t) :
    parseHeadingDoc (List.replicate k '#' ++ ' ' :: (t ++ ['\n'])) =
      [.hStart k, .txt t, .hEnd k] := by
  obtain ⟨hne, hpc, hh, hl⟩ := ht
  have hmarks : (List.replicate k '#' ++ ' ' :: (t ++ ['\n'])).takeWhile
      (fun c => decide (c = '#')) = List.replicate k '#' := by
    rw [takeWhile_append_all _ _ _ (by intro c hc; simp [List.eq_of_mem_replicate hc])]
    simp [List.takeWhile_cons]
  have hdrop : (List.replicate k '#' ++ ' ' :: (t ++ ['\n'])).drop k = ' ' :: (t ++ ['\n']) := by
    have h := List.drop_left (List.replicate k '#') (' ' :: (t ++ ['\n']))
    rwa [List.length_replicate] at h
  have htw : (t ++ ['\n']).takeWhile (fun c => decide (c ≠ '\n')) = t := by
    rw [takeWhile_append_all _ _ _ (by
      intro c hc
      simpa using plainChar_ne_nl c (hpc c hc))]
    simp [List.takeWhile_cons]
  have htrim : trimList t = t := by
    apply trimList_eq_self
    · intro b hb
      exact plainChar_not_ws b (hpc b (List.mem_of_mem_head? hb))
        (by intro hb'; subst hb'; exact hh (by simpa using hb))
    · intro b hb
      exact plainChar_not_ws b (hpc b (List.mem_of_mem_getLast? hb))
        (by intro hb'; subst hb'; exact hl (by simpa using hb))
  rw [parseHeadingDoc]
  simp only [hmarks, List.length_replicate, hdrop]
  rw [if_pos (by exact ⟨hk1, hk6, rfl⟩)]
  simp only [List.drop_one, List.tail_cons, htw, htrim]

theorem export_heading_events (k : Nat) (t : List Char) (hne : t ≠ []) :
    markdown_to_docx [.hStart k, .txt t, .hEnd k] =
      [.paraBlock none [],
       .paraBlock (some ("Heading".toList ++ (Nat.repr k).toList)) [(t, false, false)]] := by
  rw [markdown_to_docx]
  simp [exportStep, flushPara, initDocxAcc, hne]

theorem headingMark_of (k : Nat) (hk1 : 1 ≤ k) (hk6 : k ≤ 6) :
    headingMark ("Heading".toList ++ (Nat.repr k).toList) =
      List.replicate k '#' ++ [' '] := by
  interval_cases k <;> decide

/-- Counterexample for C4: importing a single `Heading2` paragraph `"Result"`
and exporting the resulting Markdown does not reproduce a single paragraph —
the exporter's unconditional flush at heading start (docx.rs line 232) emits a
leading empty unstyled paragraph before the heading paragraph. -/
theorem heading_round_trip_counterexample :
    markdown_to_docx (parseHeadingDoc (docx_to_markdown
        [.paraChild (DocxParagraph.mk (some ("Heading2".toList))
          [.runItem (DocxRun.mk [.textItem ("Result".toList)] false false)])])) =
      [.paraBlock none [],
       .paraBlock (some ("Heading2".toList)) [(("Result".toList), false, false)]] ∧
    markdown_to_docx (parseHeadingDoc (docx_to_markdown
        [.paraChild (DocxParagraph.mk (some ("Heading2".toList))
          [.runItem (DocxRun.mk [.textItem ("Result".toList)] false false)])])) ≠
      [.paraBlock (some ("Heading2".toList)) [(("Result".toList), false, false)]] := by
  constructor
  · decide
  · decide

/-- Claim C4, amended: for every heading level 1..6 and plain heading text,
importing a document consisting of a single `Heading{level}` paragraph yields
the Markdown heading line `"#"*level ++ " " ++ text ++ "\n"`, and exporting
that Markdown reproduces a paragraph with the same `Heading{level}` style and
the same text as the **final** paragraph of the document, preceded by exactly
one empty unstyled paragraph produced by the exporter's flush at heading
start. -/
theorem heading_round_trip (k : Nat) (t : List Char) (hk1 : 1 ≤ k) (hk6 : k ≤ 6)
    (ht : PlainHeadingText t) :
    docx_to_markdown
        [.paraChild (DocxParagraph.mk (some ("Heading".toList ++ (Nat.repr k).toList))
          [.runItem (DocxRun.mk [.textItem t] false false)])] =
      List.replicate k '#' ++ ' ' :: (t ++ ['\n']) ∧
    markdown_to_docx (parseHeadingDoc (docx_to_markdown
        [.paraChild (DocxParagraph.mk (some ("Heading".toList ++ (Nat.repr k).toList))
          [.runItem (DocxRun.mk [.textItem t] false false)])])) =
      [.paraBlock none [],
       .paraBlock (some ("Heading".toList ++ (Nat.repr k).toList)) [(t, false, false)]] := by
  have hne := ht.1
  have hpara := import_heading_para ("Heading".toList ++ (Nat.repr k).toList)
    (List.replicate k '#' ++ [' ']) t hne (headingMark_of k hk1 hk6)
  obtain ⟨m, rfl⟩ : ∃ m, k = m + 1 := ⟨k - 1, by omega⟩
  have htrimne : (trimList (paragraph_to_markdown
      (DocxParagraph.mk (some ("Heading".toList ++ (Nat.repr (m + 1)).toList))
        [.runItem (DocxRun.mk [.textItem t] false false)]))).isEmpty = false := by
    rw [hpara]
    have hsh : (List.replicate (m + 1) '#' ++ [' ']) ++ t =
        '#' :: (List.replicate m '#' ++ [' '] ++ t) := by
      simp [List.replicate_succ]
    rw [hsh]
    exact trimList_cons_isEmpty_false '#' _ (by decide)
  have hdoc : docx_to_markdown
      [.paraChild (DocxParagraph.mk (some ("Heading".toList ++ (Nat.repr (m + 1)).toList))
        [.runItem (DocxRun.mk [.textItem t] false false)])] =
      List.replicate (m + 1) '#' ++ ' ' :: (t ++ ['\n']) := by
    rw [import_single_para _ htrimne, hpara]
    simp
  refine ⟨hdoc, ?_⟩
  rw [hdoc, parseHeadingDoc_of_heading_line (m + 1) t hk1 hk6 ht,
    export_heading_events (m + 1) t hne]

/-- Witness for C4 (amended) at level 2 and text `"Result"`. -/
theorem heading_round_trip_witness :
    docx_to_markdown
        [.paraChild (DocxParagraph.mk (some ("Heading".toList ++ (Nat.repr 2).toList))
          [.runItem (DocxRun.mk [.textItem ("Result".toList)] false false)])] =
      List.replicate 2 '#' ++ ' ' :: ("Result".toList ++ ['\n']) ∧
    markdown_to_docx (parseHeadingDoc (docx_to_markdown
        [.paraChild (DocxParagraph.mk (some ("Heading".toList ++ (Nat.repr 2).toList))
          [.runItem (DocxRun.mk [.textItem ("Result".toList)] false false)])])) =
      [.paraBlock none [],
       .paraBlock (some ("Heading".toList ++ (Nat.repr 2).toList))
         [(("Result".toList), false, false)]] :=
  heading_round_trip 2 ("Result".toList) (by decide) (by decide) (by decide)

theorem leadsWith_nil_left (s : List Char) : leadsWith [] s = true := rfl

theorem leadsWith_cons_nil (p : Char) (ps : List Char) : leadsWith (p :: ps) [] = false := rfl

theorem leadsWith_cons_cons (p x : Char) (ps xs : List Char) :
    leadsWith (p :: ps) (x :: xs) = if p = x then leadsWith ps xs else false := rfl

theorem leadsWith_self_append (pat x : List Char) : leadsWith pat (pat ++ x) = true := by
  induction pat with
  | nil => rfl
  | cons p ps ih => rw [List.cons_append, leadsWith_cons_cons, if_pos rfl, ih]

theorem hasSub_cons_false (pat : List Char) (c : Char) (r : List Char)
    (h : hasSub pat (c :: r) = false) :
    leadsWith pat (c :: r) = false ∧ hasSub pat r = false := by
  rw [hasSub] at h
  exact Bool.or_eq_false_iff.mp h

theorem flatMap_flatMap_assoc (l : List Char) (f g : Char → List Char) :
    (l.flatMap f).flatMap g = l.flatMap fun x => (f x).flatMap g := by
  induction l with
  | nil => rfl
  | cons a l ih => simp [List.flatMap_cons, List.flatMap_append, ih]

theorem leadsWith_flatMap (esc : Char → List Char)
    (hShape : ∀ c, esc c = [c] ∨ ∃ b, esc c = '&' :: b) :
    ∀ (pat : List Char), (∀ p ∈ pat, esc p = [p] ∧ p ≠ '&') →
      ∀ s, leadsWith pat (s.flatMap esc) = leadsWith pat s := by
  intro pat
  induction pat with
  | nil => intro _ s; rfl
  | cons p ps ih =>
    intro hp s
    cases s with
    | nil => rfl
    | cons d t =>
      have hpd := hp p (by simp)
      rcases hShape d with hd | ⟨b, hd⟩
      · rw [List.flatMap_cons, hd, List.singleton_append, leadsWith_cons_cons,
          leadsWith_cons_cons]
        by_cases hpd2 : p = d
        · rw [if_pos hpd2, if_pos hpd2, ih (fun q hq => hp q (by simp [hq])) t]
        · rw [if_neg hpd2, if_neg hpd2]
      · have hpne : p ≠ '&' := hpd.2
        have hpdne : p ≠ d := by
          intro he
          subst he
          rw [hpd.1] at hd
          exact hpne (List.cons.inj hd).1
        rw [List.flatMap_cons, hd, List.cons_append, leadsWith_cons_cons,
          leadsWith_cons_cons, if_neg hpne, if_neg hpdne]

theorem decAmp_hit (r : List Char) :
    decAmp ('&' :: 'a' :: 'm' :: 'p' :: ';' :: r) = '&' :: decAmp r := rfl

theorem decAmp_not_amp (c : Char) (r : List Char) (h : c ≠ '&') :
    decAmp (c :: r) = c :: decAmp r := by
  rw [decAmp.eq_def]
  split
  · next heq => exact absurd (List.cons.inj heq).1 h
  · next c' r' heq =>
    obtain ⟨h1, h2⟩ := List.cons.inj heq
    rw [h1, h2]
  · next heq => exact absurd heq (by simp)

theorem decAmp_amp_miss (r : List Char) (h : leadsWith ("amp;".toList) r = false) :
    decAmp ('&' :: r) = '&' :: decAmp r := by
  rw [decAmp.eq_def]
  split
  · next r' heq =>
    obtain ⟨-, h2⟩ := List.cons.inj heq
    rw [h2] at h
    rw [show ('a' :: 'm' :: 'p' :: ';' :: r' : List Char) = "amp;".toList ++ r' by rfl] at h
    rw [leadsWith_self_append] at h
    exact absurd h (by simp)
  · next c' r' heq =>
    obtain ⟨h1, h2⟩ := List.cons.inj heq
    rw [← h1, ← h2]
  · next heq => exact absurd heq (by simp)

theorem decLt_hit (r : List Char) :
    decLt ('&' :: 'l' :: 't' :: ';' :: r) = '<' :: decLt r := rfl

theorem decLt_not_amp (c : Char) (r : List Char) (h : c ≠ '&') :
    decLt (c :: r) = c :: decLt r := by
  rw [decLt.eq_def]
  split
  · next heq => exact absurd (List.cons.inj heq).1 h
  · next c' r' heq =>
    obtain ⟨h1, h2⟩ := List.cons.inj heq
    rw [h1, h2]
  · next heq => exact absurd heq (by simp)

theorem decLt_amp_miss (r : List Char) (h : leadsWith ("lt;".toList) r = false) :
    decLt ('&' :: r) = '&' :: decLt r := by
  rw [decLt.eq_def]
  split
  · next r' heq =>
    obtain ⟨-, h2⟩ := List.cons.inj heq
    rw [h2] at h
    rw [show ('l' :: 't' :: ';' :: r' : List Char) = "lt;".toList ++ r' by rfl] at h
    rw [leadsWith_self_append] at h
    exact absurd h (by simp)
  · next c' r' heq =>
    obtain ⟨h1, h2⟩ := List.cons.inj heq
    rw [← h1, ← h2]
  · next heq => exact absurd heq (by simp)

theorem decGt_hit (r : List Char) :
    decGt ('&' :: 'g' :: 't' :: ';' :: r) = '>' :: decGt r := rfl

theorem decGt_not_amp (c : Char) (r : List Char) (h : c ≠ '&') :
    decGt (c :: r) = c :: decGt r := by
  rw [decGt.eq_def]
  split
  · next heq => exact absurd (List.cons.inj heq).1 h
  · next c' r' heq =>
    obtain ⟨h1, h2⟩ := List.cons.inj heq
    rw [h1, h2]
  · next heq => exact absurd heq (by simp)

theorem decGt_amp_miss (r : List Char) (h : leadsWith ("gt;".toList) r = false) :
    decGt ('&' :: r) = '&' :: decGt r := by
  rw [decGt.eq_def]
  split
  · next r' heq =>
    obtain ⟨-, h2⟩ := List.cons.inj heq
    rw [h2] at h
    rw [show ('g' :: 't' :: ';' :: r' : List Char) = "gt;".toList ++ r' by rfl] at h
    rw [leadsWith_self_append] at h
    exact absurd h (by simp)
  · next c' r' heq =>
    obtain ⟨h1, h2⟩ := List.cons.inj heq
    rw [← h1, ← h2]
  · next heq => exact absurd heq (by simp)

theorem decQuot_hit (r : List Char) :
    decQuot ('&' :: 'q' :: 'u' :: 'o' :: 't' :: ';' :: r) = '"' :: decQuot r := rfl

theorem decQuot_not_amp (c : Char) (r : List Char) (h : c ≠ '&') :
    decQuot (c :: r) = c :: decQuot r := by
  rw [decQuot.eq_def]
  split
  · next heq => exact absurd (List.cons.inj heq).1 h
  · next c' r' heq =>
    obtain ⟨h1, h2⟩ := List.cons.inj heq
    rw [h1, h2]
  · next heq => exact absurd heq (by simp)

theorem decQuot_amp_miss (r : List Char) (h : leadsWith ("quot;".toList) r = false) :
    decQuot ('&' :: r) = '&' :: decQuot r := by
  rw [decQuot.eq_def]
  split
  · next r' heq =>
    obtain ⟨-, h2⟩ := List.cons.inj heq
    rw [h2] at h
    rw [show ('q' :: 'u' :: 'o' :: 't' :: ';' :: r' : List Char) = "quot;".toList ++ r' by rfl]
      at h
    rw [leadsWith_self_append] at h
    exact absurd h (by simp)
  · next c' r' heq =>
    obtain ⟨h1, h2⟩ := List.cons.inj heq
    rw [← h1, ← h2]
  · next heq => exact absurd heq (by simp)

theorem decApos_hit (r : List Char) :
    decApos ('&' :: 'a' :: 'p' :: 'o' :: 's' :: ';' :: r) = '\'' :: decApos r := rfl

theorem decApos_not_amp (c : Char) (r : List Char) (h : c ≠ '&') :
    decApos (c :: r) = c :: decApos r := by
  rw [decApos.eq_def]
  split
  · next heq => exact absurd (List.cons.inj heq).1 h
  · next c' r' heq =>
    obtain ⟨h1, h2⟩ := List.cons.inj heq
    rw [h1, h2]
  · next heq => exact absurd heq (by simp)

theorem decApos_amp_miss (r : List Char) (h : leadsWith ("apos;".toList) r = false) :
    decApos ('&' :: r) = '&' :: decApos r := by
  rw [decApos.eq_def]
  split
  · next r' heq =>
    obtain ⟨-, h2⟩ := List.cons.inj heq
    rw [h2] at h
    rw [show ('a' :: 'p' :: 'o' :: 's' :: ';' :: r' : List Char) = "apos;".toList ++ r' by rfl]
      at h
    rw [leadsWith_self_append] at h
    exact absurd h (by simp)
  · next c' r' heq =>
    obtain ⟨h1, h2⟩ := List.cons.inj heq
    rw [← h1, ← h2]
  · next heq => exact absurd heq (by simp)

theorem xml_escape_eq_flatMap (s : List Char) : xml_escape s = s.flatMap escChar5 := by
  rw [xml_escape, escAmp, escLt, escGt, escQuot, escApos]
  rw [flatMap_flatMap_assoc, flatMap_flatMap_assoc, flatMap_flatMap_assoc,
    flatMap_flatMap_assoc]
  refine congrArg (List.flatMap s) (funext fun c => ?_)
  by_cases h1 : c = '&'
  · subst h1; decide
  · by_cases h2 : c = '<'
    · subst h2; decide
    · by_cases h3 : c = '>'
      · subst h3; decide
      · by_cases h4 : c = '"'
        · subst h4; decide
        · by_cases h5 : c = '\''
          · subst h5; decide
          · simp [escChar5, h1, h2, h3, h4, h5]

theorem decAmp_escape (s : List Char) :
    decAmp (s.flatMap escChar5) = s.flatMap escChar4 := by
  induction s with
  | nil => rfl
  | cons c t ih =>
    rw [List.flatMap_cons, List.flatMap_cons]
    by_cases h1 : c = '&'
    · subst h1
      rw [show escChar5 '&' = ['&', 'a', 'm', 'p', ';'] from by decide,
        show escChar4 '&' = ['&'] from by decide]
      simp only [List.cons_append, List.nil_append]
      rw [decAmp_hit, ih]
    · by_cases h2 : c = '<'
      · subst h2
        rw [show escChar5 '<' = ['&', 'l', 't', ';'] from by decide,
          show escChar4 '<' = ['&', 'l', 't', ';'] from by decide]
        simp only [List.cons_append, List.nil_append]
        rw [decAmp_amp_miss _ (by
            rw [show ("amp;".toList : List Char) = ['a', 'm', 'p', ';'] from rfl]
            simp [leadsWith_cons_cons]),
          decAmp_not_amp 'l' _ (by decide), decAmp_not_amp 't' _ (by decide),
          decAmp_not_amp ';' _ (by decide), ih]
      · by_cases h3 : c = '>'
        · subst h3
          rw [show escChar5 '>' = ['&', 'g', 't', ';'] from by decide,
            show escChar4 '>' = ['&', 'g', 't', ';'] from by decide]
          simp only [List.cons_append, List.nil_append]
          rw [decAmp_amp_miss _ (by
              rw [show ("amp;".toList : List Char) = ['a', 'm', 'p', ';'] from rfl]
              simp [leadsWith_cons_cons]),
            decAmp_not_amp 'g' _ (by decide), decAmp_not_amp 't' _ (by decide),
            decAmp_not_amp ';' _ (by decide), ih]
        · by_cases h4 : c = '"'
          · subst h4
            rw [show escChar5 '"' = ['&', 'q', 'u', 'o', 't', ';'] from by decide,
              show escChar4 '"' = ['&', 'q', 'u', 'o', 't', ';'] from by decide]
            simp only [List.cons_append, List.nil_append]
            rw [decAmp_amp_miss _ (by
                rw [show ("amp;".toList : List Char) = ['a', 'm', 'p', ';'] from rfl]
                simp [leadsWith_cons_cons]),
              decAmp_not_amp 'q' _ (by decide), decAmp_not_amp 'u' _ (by decide),
              decAmp_not_amp 'o' _ (by decide), decAmp_not_amp 't' _ (by decide),
              decAmp_not_amp ';' _ (by decide), ih]
          · by_cases h5 : c = '\''
            · subst h5
              rw [show escChar5 '\'' = ['&', 'a', 'p', 'o', 's', ';'] from by decide,
                show escChar4 '\'' = ['&', 'a', 'p', 'o', 's', ';'] from by decide]
              simp only [List.cons_append, List.nil_append]
              rw [decAmp_amp_miss _ (by
                  rw [show ("amp;".toList : List Char) = ['a', 'm', 'p', ';'] from rfl]
                  simp [leadsWith_cons_cons]),
                decAmp_not_amp 'a' _ (by decide), decAmp_not_amp 'p' _ (by decide),
                decAmp_not_amp 'o' _ (by decide), decAmp_not_amp 's' _ (by decide),
                decAmp_not_amp ';' _ (by decide), ih]
            · rw [show escChar5 c = [c] from by simp [escChar5, h1, h2, h3, h4, h5],
                show escChar4 c = [c] from by simp [escChar4, h2, h3, h4, h5]]
              simp only [List.cons_append, List.nil_append]
              rw [decAmp_not_amp c _ h1, ih]

theorem escChar4_shape (c : Char) : escChar4 c = [c] ∨ ∃ b, escChar4 c = '&' :: b := by
  rw [escChar4]
  split_ifs
  · exact Or.inr ⟨"lt;".toList, by decide⟩
  · exact Or.inr ⟨"gt;".toList, by decide⟩
  · exact Or.inr ⟨"quot;".toList, by decide⟩
  · exact Or.inr ⟨"apos;".toList, by decide⟩
  · exact Or.inl rfl

theorem escChar3_shape (c : Char) : escChar3 c = [c] ∨ ∃ b, escChar3 c = '&' :: b := by
  rw [escChar3]
  split_ifs
  · exact Or.inr ⟨"gt;".toList, by decide⟩
  · exact Or.inr ⟨"quot;".toList, by decide⟩
  · exact Or.inr ⟨"apos;".toList, by decide⟩
  · exact Or.inl rfl

theorem escChar2_shape (c : Char) : escChar2 c = [c] ∨ ∃ b, escChar2 c = '&' :: b := by
  rw [escChar2]
  split_ifs
  · exact Or.inr ⟨"quot;".toList, by decide⟩
  · exact Or.inr ⟨"apos;".toList, by decide⟩
  · exact Or.inl rfl

theorem escChar1_shape (c : Char) : escChar1 c = [c] ∨ ∃ b, escChar1 c = '&' :: b := by
  rw [escChar1]
  split_ifs
  · exact Or.inr ⟨"apos;".toList, by decide⟩
  · exact Or.inl rfl

theorem decLt_escape (s : List Char) (hno : hasSub ("&lt;".toList) s = false) :
    decLt (s.flatMap escChar4) = s.flatMap escChar3 := by
  induction s with
  | nil => rfl
  | cons c t ih =>
    obtain ⟨hlead, hrest⟩ := hasSub_cons_false _ _ _ hno
    have ih' := ih hrest
    rw [List.flatMap_cons, List.flatMap_cons]
    by_cases h2 : c = '<'
    · subst h2
      rw [show escChar4 '<' = ['&', 'l', 't', ';'] from by decide,
        show escChar3 '<' = ['<'] from by decide]
      simp only [List.cons_append, List.nil_append]
      rw [decLt_hit, ih']
    · by_cases h3 : c = '>'
      · subst h3
        rw [show escChar4 '>' = ['&', 'g', 't', ';'] from by decide,
          show escChar3 '>' = ['&', 'g', 't', ';'] from by decide]
        simp only [List.cons_append, List.nil_append]
        rw [decLt_amp_miss _ (by
            rw [show ("lt;".toList : List Char) = ['l', 't', ';'] from rfl]
            simp [leadsWith_cons_cons]),
          decLt_not_amp 'g' _ (by decide), decLt_not_amp 't' _ (by decide),
          decLt_not_amp ';' _ (by decide), ih']
      · by_cases h4 : c = '"'
        · subst h4
          rw [show escChar4 '"' = ['&', 'q', 'u', 'o', 't', ';'] from by decide,
            show escChar3 '"' = ['&', 'q', 'u', 'o', 't', ';'] from by decide]
          simp only [List.cons_append, List.nil_append]
          rw [decLt_amp_miss _ (by
              rw [show ("lt;".toList : List Char) = ['l', 't', ';'] from rfl]
              simp [leadsWith_cons_cons]),
            decLt_not_amp 'q' _ (by decide), decLt_not_amp 'u' _ (by decide),
            decLt_not_amp 'o' _ (by decide), decLt_not_amp 't' _ (by decide),
            decLt_not_amp ';' _ (by decide), ih']
        · by_cases h5 : c = '\''
          · subst h5
            rw [show escChar4 '\'' = ['&', 'a', 'p', 'o', 's', ';'] from by decide,
              show escChar3 '\'' = ['&', 'a', 'p', 'o', 's', ';'] from by decide]
            simp only [List.cons_append, List.nil_append]
            rw [decLt_amp_miss _ (by
                rw [show ("lt;".toList : List Char) = ['l', 't', ';'] from rfl]
                simp [leadsWith_cons_cons]),
              decLt_not_amp 'a' _ (by decide), decLt_not_amp 'p' _ (by decide),
              decLt_not_amp 'o' _ (by decide), decLt_not_amp 's' _ (by decide),
              decLt_not_amp ';' _ (by decide), ih']
          · by_cases h1 : c = '&'
            · subst h1
              rw [show escChar4 '&' = ['&'] from by decide,
                show escChar3 '&' = ['&'] from by decide]
              simp only [List.cons_append, List.nil_append]
              have hlt : leadsWith ("lt;".toList) t = false := by
                rw [show ("&lt;".toList : List Char) = '&' :: "lt;".toList from rfl,
                  leadsWith_cons_cons, if_pos rfl] at hlead
                exact hlead
              have hlw := leadsWith_flatMap escChar4 escChar4_shape ("lt;".toList)
                (by decide) t
              rw [decLt_amp_miss _ (hlw.trans hlt), ih']
            · rw [show escChar4 c = [c] from by simp [escChar4, h2, h3, h4, h5],
                show escChar3 c = [c] from by simp [escChar3, h3, h4, h5]]
              simp only [List.cons_append, List.nil_append]
              rw [decLt_not_amp c _ h1, ih']

theorem decGt_escape (s : List Char) (hno : hasSub ("&gt;".toList) s = false) :
    decGt (s.flatMap escChar3) = s.flatMap escChar2 := by
  induction s with
  | nil => rfl
  | cons c t ih =>
    obtain ⟨hlead, hrest⟩ := hasSub_cons_false _ _ _ hno
    have ih' := ih hrest
    rw [List.flatMap_cons, List.flatMap_cons]
    by_cases h3 : c = '>'
    · subst h3
      rw [show escChar3 '>' = ['&', 'g', 't', ';'] from by decide,
        show escChar2 '>' = ['>'] from by decide]
      simp only [List.cons_append, List.nil_append]
      rw [decGt_hit, ih']
    · by_cases h4 : c = '"'
      · subst h4
        rw [show escChar3 '"' = ['&', 'q', 'u', 'o', 't', ';'] from by decide,
          show escChar2 '"' = ['&', 'q', 'u', 'o', 't', ';'] from by decide]
        simp only [List.cons_append, List.nil_append]
        rw [decGt_amp_miss _ (by
            rw [show ("gt;".toList : List Char) = ['g', 't', ';'] from rfl]
            simp [leadsWith_cons_cons]),
          decGt_not_amp 'q' _ (by decide), decGt_not_amp 'u' _ (by decide),
          decGt_not_amp 'o' _ (by decide), decGt_not_amp 't' _ (by decide),
          decGt_not_amp ';' _ (by decide), ih']
      · by_cases h5 : c = '\''
        · subst h5
          rw [show escChar3 '\'' = ['&', 'a', 'p', 'o', 's', ';'] from by decide,
            show escChar2 '\'' = ['&', 'a', 'p', 'o', 's', ';'] from by decide]
          simp only [List.cons_append, List.nil_append]
          rw [decGt_amp_miss _ (by
              rw [show ("gt;".toList : List Char) = ['g', 't', ';'] from rfl]
              simp [leadsWith_cons_cons]),
            decGt_not_amp 'a' _ (by decide), decGt_not_amp 'p' _ (by decide),
            decGt_not_amp 'o' _ (by decide), decGt_not_amp 's' _ (by decide),
            decGt_not_amp ';' _ (by decide), ih']
        · by_cases h1 : c = '&'
          · subst h1
            rw [show escChar3 '&' = ['&'] from by decide,
              show escChar2 '&' = ['&'] from by decide]
            simp only [List.cons_append, List.nil_append]
            have hgt : leadsWith ("gt;".toList) t = false := by
              rw [show ("&gt;".toList : List Char) = '&' :: "gt;".toList from rfl,
                leadsWith_cons_cons, if_pos rfl] at hlead
              exact hlead
            have hlw := leadsWith_flatMap escChar3 escChar3_shape ("gt;".toList)
              (by decide) t
            rw [decGt_amp_miss _ (hlw.trans hgt), ih']
          · rw [show escChar3 c = [c] from by simp [escChar3, h3, h4, h5],
              show escChar2 c = [c] from by simp [escChar2, h4, h5]]
            simp only [List.cons_append, List.nil_append]
            rw [decGt_not_amp c _ h1, ih']

theorem decQuot_escape (s : List Char) (hno : hasSub ("&quot;".toList) s = false) :
    decQuot (s.flatMap escChar2) = s.flatMap escChar1 := by
  induction s with
  | nil => rfl
  | cons c t ih =>
    obtain ⟨hlead, hrest⟩ := hasSub_cons_false _ _ _ hno
    have ih' := ih hrest
    rw [List.flatMap_cons, List.flatMap_cons]
    by_cases h4 : c = '"'
    · subst h4
      rw [show escChar2 '"' = ['&', 'q', 'u', 'o', 't', ';'] from by decide,
        show escChar1 '"' = ['"'] from by decide]
      simp only [List.cons_append, List.nil_append]
      rw [decQuot_hit, ih']
    · by_cases h5 : c = '\''
      · subst h5
        rw [show escChar2 '\'' = ['&', 'a', 'p', 'o', 's', ';'] from by decide,
          show escChar1 '\'' = ['&', 'a', 'p', 'o', 's', ';'] from by decide]
        simp only [List.cons_append, List.nil_append]
        rw [decQuot_amp_miss _ (by
            rw [show ("quot;".toList : List Char) = ['q', 'u', 'o', 't', ';'] from rfl]
            simp [leadsWith_cons_cons]),
          decQuot_not_amp 'a' _ (by decide), decQuot_not_amp 'p' _ (by decide),
          decQuot_not_amp 'o' _ (by decide), decQuot_not_amp 's' _ (by decide),
          decQuot_not_amp ';' _ (by decide), ih']
      · by_cases h1 : c = '&'
        · subst h1
          rw [show escChar2 '&' = ['&'] from by decide,
            show escChar1 '&' = ['&'] from by decide]
          simp only [List.cons_append, List.nil_append]
          have hq : leadsWith ("quot;".toList) t = false := by
            rw [show ("&quot;".toList : List Char) = '&' :: "quot;".toList from rfl,
              leadsWith_cons_cons, if_pos rfl] at hlead
            exact hlead
          have hlw := leadsWith_flatMap escChar2 escChar2_shape ("quot;".toList)
            (by decide) t
          rw [decQuot_amp_miss _ (hlw.trans hq), ih']
        · rw [show escChar2 c = [c] from by simp [escChar2, h4, h5],
            show escChar1 c = [c] from by simp [escChar1, h5]]
          simp only [List.cons_append, List.nil_append]
          rw [decQuot_not_amp c _ h1, ih']

theorem decApos_escape (s : List Char) (hno : hasSub ("&apos;".toList) s = false) :
    decApos (s.flatMap escChar1) = s := by
  induction s with
  | nil => rfl
  | cons c t ih =>
    obtain ⟨hlead, hrest⟩ := hasSub_cons_false _ _ _ hno
    have ih' := ih hrest
    rw [List.flatMap_cons]
    by_cases h5 : c = '\''
    · subst h5
      rw [show escChar1 '\'' = ['&', 'a', 'p', 'o', 's', ';'] from by decide]
      simp only [List.cons_append, List.nil_append]
      rw [decApos_hit, ih']
    · by_cases h1 : c = '&'
      · subst h1
        rw [show escChar1 '&' = ['&'] from by decide]
        simp only [List.cons_append, List.nil_append]
        have ha : leadsWith ("apos;".toList) t = false := by
          rw [show ("&apos;".toList : List Char) = '&' :: "apos;".toList from rfl,
            leadsWith_cons_cons, if_pos rfl] at hlead
          exact hlead
        have hlw := leadsWith_flatMap escChar1 escChar1_shape ("apos;".toList)
          (by decide) t
        rw [decApos_amp_miss _ (hlw.trans ha), ih']
      · rw [show escChar1 c = [c] from by simp [escChar1, h5]]
        simp only [List.cons_append, List.nil_append]
        rw [decApos_not_amp c _ h1, ih']

/-- Counterexample for C8: on the input `"&lt;"` the exporter's escaping
followed by the importer's five sequential entity replacements yields `"<"`,
not the original string — the decoder double-decodes the `&amp;`-escaped
entity produced by the escaper. -/
theorem decode_escape_counterexample :
    decodeEntities (xml_escape ("&lt;".toList)) = "<".toList ∧
    decodeEntities (xml_escape ("&lt;".toList)) ≠ "&lt;".toList := by
  constructor
  · decide
  · decide

/-- Claim C8, amended: the importer's entity decoding inverts `xml_escape` on
every string that contains none of the four entity sequences `"&lt;"`,
`"&gt;"`, `"&quot;"`, `"&apos;"` as a substring (a literal `"&amp;"` is
harmless); on strings containing one of those sequences the round trip fails,
as the counterexample shows. -/
theorem decode_escape_round_trip (s : List Char)
    (h1 : hasSub ("&lt;".toList) s = false) (h2 : hasSub ("&gt;".toList) s = false)
    (h3 : hasSub ("&quot;".toList) s = false) (h4 : hasSub ("&apos;".toList) s = false) :
    decodeEntities (xml_escape s) = s := by
  rw [decodeEntities, xml_escape_eq_flatMap, decAmp_escape, decLt_escape s h1,
    decGt_escape s h2, decQuot_escape s h3, decApos_escape s h4]

/-- Witness for C8 (amended) at `"a&b<c d 'e'>"`, which contains every
escaped character (including a bare ampersand) but no entity sequence. -/
theorem decode_escape_round_trip_witness :
    hasSub ("&lt;".toList) ("a&b<c d 'e'>".toList) = false ∧
    hasSub ("&gt;".toList) ("a&b<c d 'e'>".toList) = false ∧
    hasSub ("&quot;".toList) ("a&b<c d 'e'>".toList) = false ∧
    hasSub ("&apos;".toList) ("a&b<c d 'e'>".toList) = false ∧
    decodeEntities (xml_escape ("a&b<c d 'e'>".toList)) = "a&b<c d 'e'>".toList :=
  ⟨by decide, by decide, by decide, by decide,
    decode_escape_round_trip ("a&b<c d 'e'>".toList)
      (by decide) (by decide) (by decide) (by decide)⟩
